import Mathlib

/-!
Verification development for the deeporigin-client managed-data module
(src/managed_data/api.py).  The Python functions are shallowly embedded as
executable Lean definitions: Python dictionaries become association lists
with insertion-ordered update semantics, the network collaborators
(describe_file, convert_id_format) become function parameters, and Python
exceptions (KeyError, TypeError, IndexError, assertion failures,
DeepOriginException) become the none case of Option-valued functions.
-/

namespace DeepOrigin

/-- A Python value as it appears in a cell of a managed-data record.
Raw field values are strings, integers, or structured dicts carrying
selectedOptions, fileIds or rowIds (schema.py FieldItem); processing also
produces None and lists. -/
inductive PyVal where
  | vNone : PyVal
  | vStr (s : String) : PyVal
  | vInt (n : Int) : PyVal
  | vSelect (selectedOptions : List String) : PyVal
  | vFile (fileIds : List String) : PyVal
  | vRef (rowIds : List String) : PyVal
  | vList (xs : List PyVal) : PyVal

/-- One entry of a row's fields list as consumed by get_dataframe
(list_database_rows response); the value key is always present there. -/
structure FieldRecord where
  columnId : String
  value : PyVal

/-- One entry of a fields list as consumed by get_row_data
(describe_row response); the value key may be absent (modelled as none). -/
structure RowField where
  columnId : String
  value : Option PyVal

/-- A column descriptor from the cols attribute of a database DescribeRow
response.  configSelectOptions models configSelect["options"]; none covers
both a missing configSelect dict and a dict without an options key.
referenceDatabaseRowId.isSome models key membership in the raw dict. -/
structure ColumnDescriptor where
  id : String
  name : String
  key : String
  type : String
  cardinality : String
  configSelectOptions : Option (List String)
  referenceDatabaseRowId : Option String
  deriving Repr, DecidableEq

/-- A database row as returned by list_database_rows. -/
structure RowRecord where
  id : String
  hid : String
  validationStatus : String
  fields : List FieldRecord

/-- The DescribeRow response for a database: the fields of api.py's
response dict that get_dataframe and download_database read.  hidPref
embeds the hidPrefix attribute of the response. -/
structure DatabaseResponse where
  id : String
  hid : String
  hidPref : String
  type : String
  cols : List ColumnDescriptor
  deriving Repr, DecidableEq

/-! ### Python dictionaries as insertion-ordered association lists -/

/-- Python dict lookup, d[k] / d.get(k). -/
def dictGet (d : List (String × α)) (k : String) : Option α :=
  (d.find? (fun p => p.1 == k)).map (fun p => p.2)

/-- Python dict assignment d[k] = v: an existing key keeps its insertion
position and gets the new value; a new key is appended at the end.
(Dictionaries never hold a key twice, so replacing the first occurrence
is the same as replacing every occurrence.) -/
def dictSet : List (String × α) → String → α → List (String × α)
  | [], k, v => [(k, v)]
  | p :: ps, k, v => if p.1 == k then (k, v) :: ps else p :: dictSet ps k v

/-- Python d.pop(k, None): remove the key if present. -/
def dictRemove (d : List (String × α)) (k : String) : List (String × α) :=
  d.filter (fun p => p.1 != k)

/-- Python d[k].append / d[k].extend for a list-valued dict: the values vs
are appended to the list stored at key k.  In every call site of the
embedding the key is present (it was inserted by the initialisation loop
of get_dataframe), so the missing-key branch is never reached. -/
def dictAppend (d : List (String × List α)) (k : String) (vs : List α) :
    List (String × List α) :=
  d.map (fun p => if p.1 == k then (p.1, p.2 ++ vs) else p)

/-- list(d.keys()) in insertion order. -/
def dictKeys (d : List (String × α)) : List String :=
  d.map (fun p => p.1)

/-- Update the value at the first occurrence of a key. -/
def dictUpdateFirst (d : List (String × α)) (k : String) (f : α → α) :
    List (String × α) :=
  match d with
  | [] => []
  | p :: ps => if p.1 == k then (p.1, f p.2) :: ps else p :: dictUpdateFirst ps k f

/-! ### Column value resolution (_parse_column_value, api.py lines 312-352) -/

/-- The body of _parse_column_value before the final empty-list
normalisation: select the values of the fields matching the column id and
unwrap select/file/reference encodings when there is exactly one match.
fileName embeds describe_file(file_id)["name"]; idToHid embeds
convert_id_format followed by extraction of the hid attribute.  Returns
(value list, ids extended onto file_ids, ids extended onto reference_ids);
none models the KeyError/TypeError raised when the single matching value
does not carry the dict key demanded by the column type. -/
def parse_column_value_core (fileName idToHid : String → String)
    (column : ColumnDescriptor) (fields : List FieldRecord)
    (use_file_names : Bool) (reference_format : String) :
    Option (List PyVal × List String × List String) :=
  let value := (fields.filter (fun f => f.columnId == column.id)).map (fun f => f.value)
  if column.type == "select" && value.length == 1 then
    match value with
    | [PyVal.vSelect opts] => some (opts.map PyVal.vStr, [], [])
    | _ => none
  else if column.type == "file" && value.length == 1 then
    match value with
    | [PyVal.vFile ids] =>
        some
          ((if use_file_names then ids.map (fun i => PyVal.vStr (fileName i))
            else ids.map PyVal.vStr), ids, [])
    | _ => none
  else if column.type == "reference" && value.length == 1 then
    match value with
    | [PyVal.vRef ids] =>
        some
          ((if reference_format == "human-id" then ids.map (fun i => PyVal.vStr (idToHid i))
            else ids.map PyVal.vStr), [], ids)
    | _ => none
  else
    some (value, [], [])

/-- _parse_column_value: the core resolution followed by the final
normalisation replacing an empty value list by [None]. -/
def parse_column_value (fileName idToHid : String → String)
    (column : ColumnDescriptor) (fields : List FieldRecord)
    (use_file_names : Bool) (reference_format : String) :
    Option (List PyVal × List String × List String) :=
  (parse_column_value_core fileName idToHid column fields use_file_names
      reference_format).map
    (fun out => ((if out.1.isEmpty then [PyVal.vNone] else out.1), out.2.1, out.2.2))

/-! ### Table assembly (get_dataframe, api.py lines 218-309) -/

/-- The ordered column dictionary built by get_dataframe. -/
abbrev Data := List (String × List PyVal)

/-- The initial data dictionary of get_dataframe: Validation Status, the
row-identifier column, then one empty list per column id. -/
def initData (columns : List ColumnDescriptor) (row_id : String) : Data :=
  columns.foldl (fun d c => dictSet d c.id [])
    (dictSet (dictSet [] "Validation Status" []) row_id [])

/-- The inner column loop of get_dataframe for one row: resolve each
column value and append it to the column list, as a single sequence cell
for cardinality many and element-wise (extend) otherwise; the file and
reference ids are accumulated onto the shared lists. -/
def processCols (fileName idToHid : String → String) (use_file_names : Bool)
    (reference_format : String) (fields : List FieldRecord) :
    List ColumnDescriptor → Data × List String × List String →
    Option (Data × List String × List String)
  | [], st => some st
  | c :: cs, (d, fs, rs) =>
    match parse_column_value fileName idToHid c fields use_file_names reference_format with
    | none => none
    | some (value, f, r) =>
      let d2 :=
        if c.cardinality == "many" then dictAppend d c.id [PyVal.vList value]
        else dictAppend d c.id value
      processCols fileName idToHid use_file_names reference_format fields cs
        (d2, fs ++ f, rs ++ r)

/-- The body of the row loop of get_dataframe: append the row hid and
validation status, then process every column of the row. -/
def processRow (fileName idToHid : String → String) (use_file_names : Bool)
    (reference_format : String) (columns : List ColumnDescriptor) (row_id : String)
    (row : RowRecord) (st : Data × List String × List String) :
    Option (Data × List String × List String) :=
  let d1 := dictAppend st.1 row_id [PyVal.vStr row.hid]
  let d2 := dictAppend d1 "Validation Status" [PyVal.vStr row.validationStatus]
  processCols fileName idToHid use_file_names reference_format row.fields columns
    (d2, st.2.1, st.2.2)

/-- The row loop of get_dataframe. -/
def assembleRows (fileName idToHid : String → String) (use_file_names : Bool)
    (reference_format : String) (columns : List ColumnDescriptor) (row_id : String) :
    List RowRecord → Data × List String × List String →
    Option (Data × List String × List String)
  | [], st => some st
  | row :: rows, st =>
    match processRow fileName idToHid use_file_names reference_format columns row_id
        row st with
    | none => none
    | some st2 =>
      assembleRows fileName idToHid use_file_names reference_format columns row_id
        rows st2

/-- Assembly of the data dictionary of get_dataframe (lines 252-282):
initialise the columns and run the row loop, threading the file_ids and
reference_ids accumulators. -/
def assembleData (fileName idToHid : String → String)
    (columns : List ColumnDescriptor) (row_id : String) (rows : List RowRecord)
    (use_file_names : Bool) (reference_format : String) :
    Option (Data × List String × List String) :=
  assembleRows fileName idToHid use_file_names reference_format columns row_id rows
    (initData columns row_id, [], [])

/-! ### The pandas structures used by get_dataframe

pandas itself is an external library; the embedding models only the
behaviour of the calls the source makes, per the pandas documentation:
DataFrame construction from a dict of equal-length lists, column rename,
Categorical coercion, Series.attrs, DataFrame.attrs and outer merge. -/

/-- The categorical dtype produced by pd.Categorical: the ordered level
list plus the ordered flag (pandas defaults ordered to False when the
call does not pass it, as in _type_and_cleanup_dataframe). -/
structure CategoricalInfo where
  categories : List String
  ordered : Bool
  deriving Repr, DecidableEq

/-- Series.attrs as the source uses it: empty, a column descriptor, or
the synthetic Validation Status marker dict. -/
inductive ColAttrs where
  | empty : ColAttrs
  | descriptor (c : ColumnDescriptor) : ColAttrs
  | validationStatus : ColAttrs
  deriving Repr, DecidableEq

/-- One DataFrame column: its cell values, its categorical dtype if
pd.Categorical was applied, and its Series.attrs. -/
structure DFColumn where
  values : List PyVal
  categorical : Option CategoricalInfo
  attrs : ColAttrs

/-- DataFrame.attrs as set by get_dataframe (schema.py
DATAFRAME_ATTRIBUTE_KEYS). -/
structure DFAttrs where
  file_ids : List String
  reference_ids : List String
  id : String
  primary_key : String
  deriving Repr, DecidableEq

/-- A pandas DataFrame restricted to what the source reads and writes:
an ordered association of column labels to columns, plus DataFrame.attrs. -/
structure DataFrame where
  cols : List (String × DFColumn)
  attrs : DFAttrs

/-- Modelled from the pandas documentation: pd.Categorical(values,
categories=categories).  Values present in the category list are kept,
null stays null, any other hashable value becomes null (NaN), and an
unhashable value (a dict or list cell) raises, modelled as none.  The
resulting dtype carries the given categories in order with
ordered=False, the documented default when ordered is not passed. -/
def pdCategoricalValue (categories : List String) : PyVal → Option PyVal
  | PyVal.vNone => some PyVal.vNone
  | PyVal.vStr s => some (if categories.contains s then PyVal.vStr s else PyVal.vNone)
  | PyVal.vInt _ => some PyVal.vNone
  | _ => none

/-- Element-wise Categorical coercion of a value list; none as soon as one
value is unhashable. -/
def pdCategoricalValues (categories : List String) : List PyVal → Option (List PyVal)
  | [] => some []
  | v :: vs =>
    match pdCategoricalValue categories v, pdCategoricalValues categories vs with
    | some w, some ws => some (w :: ws)
    | _, _ => none

def pdCategorical (values : List PyVal) (categories : List String) :
    Option (List PyVal × CategoricalInfo) :=
  match pdCategoricalValues categories values with
  | none => none
  | some vs => some (vs, { categories := categories, ordered := false })

/-- Modelled from the pandas documentation: pd.DataFrame(data) for a dict
of lists requires all lists to have the same length (else ValueError,
modelled as none) and yields a DataFrame whose columns are the dict
entries in insertion order, with empty Series.attrs and no categorical
dtype. -/
def pdDataFrame (data : Data) : Option (List (String × DFColumn)) :=
  match data with
  | [] => some []
  | p :: ps =>
    if ps.all (fun q => q.2.length == p.2.length) then
      some ((p :: ps).map (fun q =>
        (q.1, { values := q.2, categorical := none, attrs := ColAttrs.empty })))
    else none

/-! ### _type_and_cleanup_dataframe (api.py lines 355-396) -/

/-- The select-column loop of _type_and_cleanup_dataframe: for every
select column of cardinality one, replace the column (still keyed by its
column id at this point) by its Categorical coercion with levels
configSelect["options"]; none models the TypeError/KeyError on a missing
configSelect, the KeyError on a missing column, or a Categorical failure. -/
def applyCategoricals : List ColumnDescriptor → List (String × DFColumn) →
    Option (List (String × DFColumn))
  | [], cols => some cols
  | c :: cs, cols =>
    if c.type == "select" && c.cardinality == "one" then
      match c.configSelectOptions, dictGet cols c.id with
      | some opts, some col =>
        match pdCategorical col.values opts with
        | some (vs, info) =>
          applyCategoricals cs
            (dictSet cols c.id { values := vs, categorical := some info, attrs := ColAttrs.empty })
        | none => none
      | _, _ => none
    else applyCategoricals cs cols

/-- df.rename(columns=mapper): every column label in the mapper is
replaced by its image; labels outside the mapper are unchanged. -/
def renameCols (mapper : List (String × String)) (cols : List (String × DFColumn)) :
    List (String × DFColumn) :=
  cols.map (fun p => ((dictGet mapper p.1).getD p.1, p.2))

/-- The metadata wipe loop: set every Series.attrs to the empty dict. -/
def wipeAttrs (cols : List (String × DFColumn)) : List (String × DFColumn) :=
  cols.map (fun p => (p.1, { p.2 with attrs := ColAttrs.empty }))

/-- The metadata attach loop: for every column descriptor, set the attrs
of the dataframe column carrying its display name; none models the
KeyError when the column is absent. -/
def attachAttrs : List ColumnDescriptor → List (String × DFColumn) →
    Option (List (String × DFColumn))
  | [], cols => some cols
  | c :: cs, cols =>
    if (dictGet cols c.name).isSome then
      attachAttrs cs
        (dictUpdateFirst cols c.name (fun col => { col with attrs := ColAttrs.descriptor c }))
    else none

/-- The id-to-display-name column mapper built by the source. -/
def columnMapper (columns : List ColumnDescriptor) : List (String × String) :=
  columns.foldl (fun m c => dictSet m c.id c.name) []

/-- _type_and_cleanup_dataframe: Categorical coercion of single-valued
select columns, rename of ids to display names, wipe of per-column
metadata, attachment of column descriptors, and the synthetic Validation
Status descriptor. -/
def type_and_cleanup_dataframe (df : DataFrame) (columns : List ColumnDescriptor) :
    Option DataFrame :=
  match applyCategoricals columns df.cols with
  | none => none
  | some cols1 =>
    let cols2 := wipeAttrs (renameCols (columnMapper columns) cols1)
    match attachAttrs columns cols2 with
    | none => none
    | some cols3 =>
      if (dictGet cols3 "Validation Status").isSome then
        some { cols :=
                 dictUpdateFirst cols3 "Validation Status"
                   (fun col => { col with attrs := ColAttrs.validationStatus }),
               attrs := df.attrs }
      else none

/-- The key-renaming loop of the dict return branch of get_dataframe:
walk the mapper keys in insertion order, copy the value from the original
data dictionary under the display name, and pop the id key.  The
fallthrough branch is unreachable because every mapper key is a column id
and every column id is a key of data. -/
def renameDict (columns : List ColumnDescriptor) (data : Data) : Data :=
  (dictKeys (columnMapper columns)).foldl
    (fun rd key =>
      match dictGet (columnMapper columns) key, dictGet data key with
      | some new_key, some v => dictRemove (dictSet rd new_key v) key
      | _, _ => rd)
    data

/-- The two return shapes of get_dataframe. -/
inductive DatabaseReturn where
  | dataframe (df : DataFrame) : DatabaseReturn
  | dict (d : Data) : DatabaseReturn

/-- get_dataframe: check that the id resolves to a database, assemble the
data dictionary over all rows and columns, then either build the typed
and cleaned DataFrame with its attrs (file and reference id sets are
deduplicated as list(set(...)), embedded as eraseDups since only
membership and cardinality are observable) or return the renamed plain
dictionary. -/
def get_dataframe (fileName idToHid : String → String)
    (response : DatabaseResponse) (rows : List RowRecord)
    (use_file_names : Bool) (reference_format : String) (return_type : String) :
    Option DatabaseReturn :=
  if response.type != "database" then none
  else
    let columns := response.cols
    let row_id := response.hidPref ++ "-id"
    match assembleData fileName idToHid columns row_id rows use_file_names
        reference_format with
    | none => none
    | some (data, file_ids, reference_ids) =>
      if return_type == "dataframe" then
        match pdDataFrame data with
        | none => none
        | some cols0 =>
          let df : DataFrame :=
            { cols := cols0,
              attrs := { file_ids := file_ids.eraseDups,
                         reference_ids := reference_ids.eraseDups,
                         id := response.id,
                         primary_key := row_id } }
          (type_and_cleanup_dataframe df columns).map DatabaseReturn.dataframe
      else
        some (DatabaseReturn.dict (renameDict columns data))

/-! ### get_row_data (api.py lines 429-495) -/

/-- The column-id to display-name (or key) mapper of get_row_data. -/
def columnNameMap (cols : List ColumnDescriptor) (use_column_keys : Bool) :
    List (String × String) :=
  cols.foldl (fun m c => dictSet m c.id (if use_column_keys then c.key else c.name)) []

/-- The column-id to cardinality mapper of get_row_data. -/
def columnCardMap (cols : List ColumnDescriptor) : List (String × String) :=
  cols.foldl (fun m c => dictSet m c.id c.cardinality) []

/-- The dict-value unwrapping of get_row_data: selectedOptions and
fileIds dicts become their string lists; anything else (including a
rowIds reference dict) passes through unchanged. -/
def rowDataUnwrap : PyVal → PyVal
  | PyVal.vSelect opts => PyVal.vList (opts.map PyVal.vStr)
  | PyVal.vFile ids => PyVal.vList (ids.map PyVal.vStr)
  | v => v

/-- The cardinality-one list unwrapping of get_row_data: value[0] of a
list value (none models the IndexError on an empty list); non-list values
pass through. -/
def rowDataCardOne : PyVal → Option PyVal
  | PyVal.vList xs => xs.head?
  | v => some v

/-- The field loop of get_row_data: skip fields without a value entry,
unwrap selectedOptions and fileIds dicts (reference dicts pass through
unchanged), take the first element of a list value for cardinality-one
columns (none models the IndexError on an empty list and the KeyError on
a column id absent from the parent database cols). -/
def rowDataLoop (nameMap cardMap : List (String × String)) :
    List RowField → List (String × PyVal) → Option (List (String × PyVal))
  | [], acc => some acc
  | f :: fs, acc =>
    match f.value with
    | none => rowDataLoop nameMap cardMap fs acc
    | some v0 =>
      match dictGet cardMap f.columnId with
      | none => none
      | some card =>
        match (if card == "one" then rowDataCardOne (rowDataUnwrap v0)
            else some (rowDataUnwrap v0)),
          dictGet nameMap f.columnId with
        | some v, some nm => rowDataLoop nameMap cardMap fs (dictSet acc nm v)
        | _, _ => none

/-- The describe_row response for a row, as read by get_row_data. -/
structure RowResponse where
  id : String
  type : String
  parentId : String
  fields : List RowField

/-- get_row_data: check that the id resolves to a row and its parent to a
database, then build the column-name to value dictionary from the fields
carrying a value. -/
def get_row_data (response : RowResponse) (parent : DatabaseResponse)
    (use_column_keys : Bool) : Option (List (String × PyVal)) :=
  if response.type != "row" then none
  else if parent.type != "database" then none
  else
    rowDataLoop (columnNameMap parent.cols use_column_keys)
      (columnCardMap parent.cols) response.fields []

/-! ### merge_databases (api.py lines 498-547) -/

/-- Whether a Series.attrs dict contains the referenceDatabaseRowId key,
and its value. -/
def colRefId : ColAttrs → Option String
  | ColAttrs.descriptor c => c.referenceDatabaseRowId
  | _ => none

/-- The per-dataframe column_mapper loop of merge_databases: for every
column whose attrs carry a referenceDatabaseRowId, map the column label
to the primary-key name recorded for that database id; none models the
KeyError when the referenced database id is not one of the two merged
databases. -/
def buildColumnMapper (cross : List (String × String)) :
    List (String × DFColumn) → List (String × String) → Option (List (String × String))
  | [], m => some m
  | p :: ps, m =>
    match colRefId p.2.attrs with
    | none => buildColumnMapper cross ps m
    | some refId =>
      match dictGet cross refId with
      | some pk => buildColumnMapper cross ps (dictSet m p.1 pk)
      | none => none

/-- The outcome of merge_databases up to the final pandas merge call: the
two renamed dataframes and the labels the outer join is performed on
(pandas merges on the columns common to both when no key is passed).
The join engine itself is the external pandas collaborator. -/
structure MergeResult where
  left : DataFrame
  right : DataFrame
  joinOn : List String

/-- merge_databases: require exactly two dataframes, build the database-id
to primary-key cross-reference mapper from their attrs, rename every
reference column to the primary-key name of the database it points to,
and hand both frames to the outer merge. -/
def merge_databases (dfs : List DataFrame) : Option MergeResult :=
  match dfs with
  | [df1, df2] =>
    let cross :=
      dictSet (dictSet [] df1.attrs.id df1.attrs.primary_key) df2.attrs.id
        df2.attrs.primary_key
    match buildColumnMapper cross df1.cols [], buildColumnMapper cross df2.cols [] with
    | some m1, some m2 =>
      let left : DataFrame := { df1 with cols := renameCols m1 df1.cols }
      let right : DataFrame := { df2 with cols := renameCols m2 df2.cols }
      some { left := left, right := right,
             joinOn := (dictKeys left.cols).filter (fun n => (dictKeys right.cols).contains n) }
    | _, _ => none
  | _ => none

/-! ### download_database (api.py lines 170-215) -/

/-- The externally observable side effects of download_database. -/
inductive Effect where
  | downloadFile (fileId : String) (destination : String) : Effect
  | writeCsv (destination : String) (filename : String) : Effect
  deriving Repr, DecidableEq

/-- Whether an effect is a file-download collaborator call. -/
def isDownloadEffect : Effect → Bool
  | Effect.downloadFile _ _ => true
  | _ => false

/-- Whether an effect is a CSV write. -/
def isCsvEffect : Effect → Bool
  | Effect.writeCsv _ _ => true
  | _ => false

/-- download_database with a dict source: check the destination is a
directory, build the dataframe with file names and the default human-id
reference format, then (when include_files) download every file id in the
deduplicated file_ids attribute, and finally write <hid>.csv into the
destination.  The returned list records the collaborator calls in order;
none models the failure paths (bad destination or dataframe failure). -/
def download_database (fileName idToHid : String → String) (destIsDir : Bool)
    (source : DatabaseResponse) (rows : List RowRecord) (destination : String)
    (include_files : Bool) : Option (List Effect) :=
  if !destIsDir then none
  else
    match get_dataframe fileName idToHid source rows true "human-id" "dataframe" with
    | some (DatabaseReturn.dataframe df) =>
      some
        ((if include_files then
            df.attrs.file_ids.map (fun fid => Effect.downloadFile fid destination)
          else []) ++
          [Effect.writeCsv destination (source.hid ++ ".csv")])
    | _ => none

/-! ### get_tree (api.py lines 22-89) -/

/-- One object of the list_rows response, as read by get_tree. -/
structure TreeObj where
  id : String
  parentId : Option String
  type : String
  deriving Repr, DecidableEq

/-- The flat object list get_tree works on: everything when rows are
included, otherwise the workspace listing followed by the database
listing (list_rows with a row_type filter preserves the service order). -/
def treeObjects (include_rows : Bool) (allObjects : List TreeObj) : List TreeObj :=
  if include_rows then allObjects
  else allObjects.filter (fun o => o.type == "workspace") ++
    allObjects.filter (fun o => o.type == "database")

/-- The result of get_tree.  Python mutates children lists in place on
the fetched dicts; the embedding keys each object by its position in
objects and records its children as (position, object) pairs, none
standing for a dict without a children key (rows never get one). -/
structure TreeResult where
  objects : List TreeObj
  root : Nat
  children : List (Option (List (Nat × TreeObj)))
  deriving Repr, DecidableEq

/-- _add_children: set the children of the given node to the candidate
objects whose parentId equals the node id, in candidate order. -/
def add_children (cs : List (Option (List (Nat × TreeObj)))) (node : Nat × TreeObj)
    (cands : List (Nat × TreeObj)) : List (Option (List (Nat × TreeObj))) :=
  cs.set node.1 (some (cands.filter (fun q => q.2.parentId == some node.2.id)))

/-- get_tree: partition the fetched objects by type, give every workspace
and database an empty children list, require exactly one root (parentId
null), attach workspaces under the root, workspaces and databases under
every workspace, and (when rows are included) rows under every database.
none models the DeepOriginException on zero or several roots. -/
def get_tree (include_rows : Bool) (allObjects : List TreeObj) : Option TreeResult :=
  let os := treeObjects include_rows allObjects
  let rows := os.enum.filter (fun p => p.2.type == "row")
  let ws := os.enum.filter (fun p => p.2.type == "workspace")
  let db := os.enum.filter (fun p => p.2.type == "database")
  let cs0 : List (Option (List (Nat × TreeObj))) := List.replicate os.length none
  let cs1 := (ws ++ db).foldl (fun cs p => cs.set p.1 (some [])) cs0
  match os.enum.filter (fun p => p.2.parentId == none) with
  | [rootPair] =>
    let cs2 := add_children cs1 rootPair ws
    let cs3 := ws.foldl (fun cs p => add_children cs p (ws ++ db)) cs2
    let cs4 := if include_rows then db.foldl (fun cs p => add_children cs p rows) cs3
      else cs3
    some { objects := os, root := rootPair.1, children := cs4 }
  | _ => none

/-- The children list of the node at position i of the result, none when
the object never received a children key. -/
def childrenAt (t : TreeResult) (i : Nat) : Option (List (Nat × TreeObj)) :=
  (t.children.get? i).join

/-! ### Basic lemmas about the dictionary embedding -/

theorem dictGet_nil (k : String) : dictGet ([] : List (String × α)) k = none := rfl

theorem dictGet_cons (p : String × α) (d : List (String × α)) (k : String) :
    dictGet (p :: d) k = if p.1 == k then some p.2 else dictGet d k := by
  simp only [dictGet, List.find?]
  cases h : p.1 == k <;> simp [h]

theorem dictGet_append (d e : List (String × α)) (k : String) :
    dictGet (d ++ e) k = ((dictGet d k).orElse (fun _ => dictGet e k)) := by
  induction d with
  | nil => simp [dictGet_nil, Option.orElse]
  | cons p d ih =>
    rw [List.cons_append, dictGet_cons, dictGet_cons]
    cases h : p.1 == k <;> simp [h, ih, Option.orElse]

theorem dictGet_eq_none_of_not_mem_keys (d : List (String × α)) (k : String)
    (h : k ∉ dictKeys d) : dictGet d k = none := by
  induction d with
  | nil => rfl
  | cons p d ih =>
    rw [dictGet_cons]
    have h1 : p.1 ≠ k := by
      intro he; exact h (by simp [dictKeys, he])
    have h2 : k ∉ dictKeys d := by
      intro hm; exact h (by simp [dictKeys] at hm ⊢; right; exact hm)
    simp [h1, ih h2]

theorem mem_keys_of_dictGet_eq_some (d : List (String × α)) (k : String) (v : α)
    (h : dictGet d k = some v) : k ∈ dictKeys d := by
  by_contra hk
  rw [dictGet_eq_none_of_not_mem_keys d k hk] at h
  exact Option.noConfusion h

theorem dictSet_nil (k : String) (v : α) :
    dictSet ([] : List (String × α)) k v = [(k, v)] := rfl

theorem dictSet_cons (p : String × α) (d : List (String × α)) (k : String) (v : α) :
    dictSet (p :: d) k v =
      if p.1 == k then (k, v) :: d else p :: dictSet d k v := rfl

theorem dictSet_of_not_mem_keys (d : List (String × α)) (k : String) (v : α)
    (h : k ∉ dictKeys d) : dictSet d k v = d ++ [(k, v)] := by
  induction d with
  | nil => rfl
  | cons p ps ih =>
    have h1 : p.1 ≠ k := fun he => h (by simp [dictKeys, he])
    have h2 : k ∉ dictKeys ps := fun hm => h (by simp [dictKeys] at hm ⊢; exact Or.inr hm)
    rw [dictSet_cons, if_neg (by simpa using h1), ih h2, List.cons_append]

theorem dictKeys_dictSet (d : List (String × α)) (k : String) (v : α) :
    dictKeys (dictSet d k v) =
      if k ∈ dictKeys d then dictKeys d else dictKeys d ++ [k] := by
  induction d with
  | nil => simp [dictSet_nil, dictKeys]
  | cons p ps ih =>
    rw [dictSet_cons]
    by_cases he : p.1 = k
    · simp [dictKeys, he]
    · have h3 : (k = p.1) = False := by simp [Ne.symm he]
      simp only [dictKeys, List.map_cons]
      rw [if_neg (by simpa using he), List.map_cons]
      show p.1 :: dictKeys (dictSet ps k v) = _
      rw [ih]
      simp only [dictKeys, List.mem_cons, h3, false_or]
      by_cases hk : k ∈ List.map (fun p => p.1) ps
      · simp [hk]
      · simp [hk]

theorem dictGet_dictSet_self (d : List (String × α)) (k : String) (v : α) :
    dictGet (dictSet d k v) k = some v := by
  induction d with
  | nil => simp [dictSet_nil, dictGet_cons]
  | cons p ps ih =>
    rw [dictSet_cons]
    by_cases he : p.1 = k
    · simp [he, dictGet_cons]
    · rw [if_neg (by simpa using he), dictGet_cons, if_neg (by simpa using he)]
      exact ih

theorem dictGet_dictSet_ne (d : List (String × α)) (k k2 : String) (v : α)
    (h : k ≠ k2) : dictGet (dictSet d k v) k2 = dictGet d k2 := by
  induction d with
  | nil => simp [dictSet_nil, dictGet_cons, dictGet_nil, h]
  | cons p ps ih =>
    rw [dictSet_cons]
    by_cases he : p.1 = k
    · have h2 : p.1 ≠ k2 := by rw [he]; exact h
      rw [if_pos (by simpa using he), dictGet_cons, dictGet_cons,
        if_neg (by simpa using h), if_neg (by simpa using h2)]
    · rw [if_neg (by simpa using he), dictGet_cons, dictGet_cons]
      by_cases he2 : p.1 = k2
      · simp [he2]
      · rw [if_neg (by simpa using he2), if_neg (by simpa using he2)]
        exact ih

theorem mem_dictSet (d : List (String × α)) (k : String) (v : α) (p : String × α)
    (h : p ∈ dictSet d k v) : p ∈ d ∨ p = (k, v) := by
  induction d with
  | nil => simp [dictSet_nil] at h; exact Or.inr h
  | cons q ps ih =>
    rw [dictSet_cons] at h
    by_cases he : q.1 = k
    · rw [if_pos (by simpa using he)] at h
      rcases List.mem_cons.mp h with h | h
      · exact Or.inr h
      · exact Or.inl (List.mem_cons_of_mem _ h)
    · rw [if_neg (by simpa using he)] at h
      rcases List.mem_cons.mp h with h | h
      · exact Or.inl (h ▸ List.mem_cons_self _ _)
      · rcases ih h with h | h
        · exact Or.inl (List.mem_cons_of_mem _ h)
        · exact Or.inr h

theorem dictKeys_nodup_dictSet (d : List (String × α)) (k : String) (v : α)
    (h : (dictKeys d).Nodup) : (dictKeys (dictSet d k v)).Nodup := by
  rw [dictKeys_dictSet]
  by_cases hk : k ∈ dictKeys d
  · simpa [hk] using h
  · simp only [hk, if_false]
    rw [List.nodup_append]
    exact ⟨h, List.nodup_singleton k, by simpa using hk⟩

theorem dictKeys_dictAppend (d : List (String × List β)) (k : String) (vs : List β) :
    dictKeys (dictAppend d k vs) = dictKeys d := by
  simp only [dictKeys, dictAppend, List.map_map]
  apply List.map_congr_left
  intro p _
  by_cases he : p.1 = k <;> simp [he]

theorem dictGet_dictAppend_self (d : List (String × List β)) (k : String) (vs : List β) :
    dictGet (dictAppend d k vs) k = (dictGet d k).map (fun l => l ++ vs) := by
  induction d with
  | nil => rfl
  | cons p d ih =>
    simp only [dictAppend, List.map_cons]
    by_cases he : p.1 = k
    · simp [he, dictGet_cons]
    · rw [show (if p.1 == k then (p.1, p.2 ++ vs) else p) = p by simp [he],
        dictGet_cons, dictGet_cons, if_neg (by simpa using he),
        if_neg (by simpa using he)]
      simpa [dictAppend] using ih

theorem dictGet_dictAppend_ne (d : List (String × List β)) (k k2 : String) (vs : List β)
    (h : k ≠ k2) : dictGet (dictAppend d k vs) k2 = dictGet d k2 := by
  induction d with
  | nil => rfl
  | cons p d ih =>
    simp only [dictAppend, List.map_cons]
    by_cases he : p.1 = k
    · rw [show (if p.1 == k then (p.1, p.2 ++ vs) else p) = (p.1, p.2 ++ vs) by simp [he],
        dictGet_cons, dictGet_cons]
      simp only []
      rw [if_neg (by simp; exact fun hx => h (he ▸ hx)), if_neg (by simp; exact fun hx => h (he ▸ hx))]
      simpa [dictAppend] using ih
    · rw [show (if p.1 == k then (p.1, p.2 ++ vs) else p) = p by simp [he],
        dictGet_cons, dictGet_cons]
      by_cases he2 : p.1 = k2
      · simp [he2]
      · rw [if_neg (by simpa using he2), if_neg (by simpa using he2)]
        simpa [dictAppend] using ih

/-! ### Lemmas about _parse_column_value -/

/-- C4 counterexample input: a select column receiving two field records. -/
def exSelectColumn : ColumnDescriptor :=
  { id := "c1", name := "Select Col", key := "c1k", type := "select",
    cardinality := "one", configSelectOptions := some ["A", "B"],
    referenceDatabaseRowId := none }

/-- C4: when more than one field record matches the column id, all the
unwrapping branches (which require exactly one match) are skipped and the
raw matched values are returned unchanged, with no side-channel ids; the
resolver does not fail. -/
theorem parse_multi_match_passthrough (fileName idToHid : String → String)
    (column : ColumnDescriptor) (fields : List FieldRecord)
    (use_file_names : Bool) (reference_format : String)
    (h : 2 ≤ (fields.filter (fun f => f.columnId == column.id)).length) :
    parse_column_value fileName idToHid column fields use_file_names reference_format =
      some ((fields.filter (fun f => f.columnId == column.id)).map (fun f => f.value),
        [], []) := by
  have hlen :
      ((fields.filter (fun f => f.columnId == column.id)).map (fun f => f.value)).length =
        (fields.filter (fun f => f.columnId == column.id)).length :=
    List.length_map _ _
  have hne : ((fields.filter (fun f => f.columnId == column.id)).map
      (fun f => f.value)).length ≠ 1 := by
    rw [hlen]; omega
  have hb : (((fields.filter (fun f => f.columnId == column.id)).map
      (fun f => f.value)).length == 1) = false := by
    simpa using hne
  have hempty : ((fields.filter (fun f => f.columnId == column.id)).map
      (fun f => f.value)).isEmpty = false := by
    rw [List.isEmpty_eq_false]
    intro hnil
    rw [hnil] at hlen
    simp at hlen
    omega
  unfold parse_column_value parse_column_value_core
  simp only [hb, Bool.and_false, Bool.false_eq_true, if_false, Option.map_some, hempty]
  simp [hempty]

/-- C4 counterexample: a select column with two matching field records;
the resolver returns the two raw values (it does not raise). -/
theorem parse_multi_match_counterexample :
    parse_column_value (fun _ => "") (fun _ => "") exSelectColumn
      [{ columnId := "c1", value := PyVal.vSelect ["A"] },
       { columnId := "c1", value := PyVal.vSelect ["B"] }] false "human-id"
      = some ([PyVal.vSelect ["A"], PyVal.vSelect ["B"]], [], []) ∧
    (List.filter (fun f => f.columnId == exSelectColumn.id)
      ([{ columnId := "c1", value := PyVal.vSelect ["A"] },
        { columnId := "c1", value := PyVal.vSelect ["B"] }] : List FieldRecord)).length
      = 2 := ⟨rfl, rfl⟩

/-- C4 witness: the passthrough theorem applied at the two-match input. -/
theorem parse_multi_match_passthrough_witness :
    parse_column_value (fun _ => "") (fun _ => "") exSelectColumn
      [{ columnId := "c1", value := PyVal.vSelect ["A"] },
       { columnId := "c1", value := PyVal.vSelect ["B"] }] false "human-id"
      = some ([PyVal.vSelect ["A"], PyVal.vSelect ["B"]], [], []) :=
  parse_multi_match_passthrough (fun _ => "") (fun _ => "") exSelectColumn
    [{ columnId := "c1", value := PyVal.vSelect ["A"] },
     { columnId := "c1", value := PyVal.vSelect ["B"] }] false "human-id"
    (by decide)

/-- C5: the resolver never returns an empty value list, and whenever the
resolution body produces an empty list (for instance with zero matching
fields) the final normalisation turns it into the single null marker. -/
theorem parse_empty_value_null (fileName idToHid : String → String)
    (column : ColumnDescriptor) (fields : List FieldRecord)
    (use_file_names : Bool) (reference_format : String) :
    (∀ out, parse_column_value fileName idToHid column fields use_file_names
        reference_format = some out → out.1 ≠ []) ∧
    (∀ f r, parse_column_value_core fileName idToHid column fields use_file_names
        reference_format = some ([], f, r) →
      parse_column_value fileName idToHid column fields use_file_names
        reference_format = some ([PyVal.vNone], f, r)) := by
  constructor
  · intro out hout
    unfold parse_column_value at hout
    cases hc : parse_column_value_core fileName idToHid column fields use_file_names
        reference_format with
    | none => rw [hc] at hout; exact Option.noConfusion hout
    | some o =>
      rw [hc] at hout
      have hout2 := Option.some.inj hout
      subst hout2
      show (if o.1.isEmpty then [PyVal.vNone] else o.1) ≠ []
      cases he : o.1.isEmpty
      · rw [if_neg (by simp [he])]
        exact List.isEmpty_eq_false.mp he
      · rw [if_pos (by simp [he])]
        exact List.cons_ne_nil _ _
  · intro f r hc
    unfold parse_column_value
    rw [hc]
    rfl

/-- C5 witness: with zero matching fields the body yields the empty list
and the resolver returns the null marker singleton. -/
theorem parse_empty_value_null_witness :
    parse_column_value (fun _ => "") (fun _ => "") exSelectColumn [] false "human-id"
      = some ([PyVal.vNone], [], []) :=
  (parse_empty_value_null (fun _ => "") (fun _ => "") exSelectColumn [] false
    "human-id").2 [] [] rfl

/-! ### Length bookkeeping through table assembly (for C1) -/

theorem dictGet_mem (d : List (String × α)) (k : String) (v : α)
    (h : dictGet d k = some v) : (k, v) ∈ d := by
  induction d with
  | nil => exact Option.noConfusion h
  | cons p ps ih =>
    rw [dictGet_cons] at h
    by_cases he : p.1 = k
    · rw [if_pos (by simpa using he)] at h
      obtain ⟨a, b⟩ := p
      have ha : a = k := he
      have hb : b = v := Option.some.inj h
      subst ha; subst hb
      exact List.mem_cons_self _ _
    · rw [if_neg (by simpa using he)] at h
      exact List.mem_cons_of_mem _ (ih h)

theorem dictGet_of_mem_of_nodup (d : List (String × α)) (p : String × α)
    (hmem : p ∈ d) (hnd : (dictKeys d).Nodup) : dictGet d p.1 = some p.2 := by
  induction d with
  | nil => cases hmem
  | cons q ps ih =>
    rw [dictGet_cons]
    rcases List.mem_cons.mp hmem with h | h
    · simp [h]
    · have hq : q.1 ≠ p.1 := by
        intro he
        have : p.1 ∈ dictKeys ps := by
          simp only [dictKeys]
          exact List.mem_map.mpr ⟨p, h, rfl⟩
        rw [← he] at this
        exact (List.nodup_cons.mp (by simpa [dictKeys] using hnd)).1 this
      rw [if_neg (by simpa using hq)]
      exact ih h (List.nodup_cons.mp (by simpa [dictKeys] using hnd)).2

theorem processCols_keys (fileName idToHid : String → String) (ufn : Bool)
    (rfmt : String) (fields : List FieldRecord) :
    ∀ (cs : List ColumnDescriptor) (st : Data × List String × List String)
      (st2 : Data × List String × List String),
      processCols fileName idToHid ufn rfmt fields cs st = some st2 →
      dictKeys st2.1 = dictKeys st.1 := by
  intro cs
  induction cs with
  | nil =>
    intro st st2 h
    cases st
    exact congrArg (fun s => dictKeys s.1) (Option.some.inj h).symm
  | cons c cs ih =>
    intro st st2 h
    obtain ⟨d, fs, rs⟩ := st
    rw [processCols] at h
    cases hp : parse_column_value fileName idToHid c fields ufn rfmt with
    | none => rw [hp] at h; exact Option.noConfusion h
    | some out =>
      obtain ⟨value, f, r⟩ := out
      rw [hp] at h
      have := ih _ _ h
      simp only at this
      rw [this]
      by_cases hm : c.cardinality == "many" <;> simp [hm, dictKeys_dictAppend]

theorem processCols_length (fileName idToHid : String → String) (ufn : Bool)
    (rfmt : String) (fields : List FieldRecord) :
    ∀ (cs : List ColumnDescriptor) (d : Data) (fs rs : List String)
      (d2 : Data) (fs2 rs2 : List String),
      processCols fileName idToHid ufn rfmt fields cs (d, fs, rs) = some (d2, fs2, rs2) →
      (∀ c ∈ cs, c.cardinality ≠ "many" → ∀ out,
        parse_column_value fileName idToHid c fields ufn rfmt = some out →
          out.1.length = 1) →
      ∀ k vs, dictGet d k = some vs →
        ∃ vs2, dictGet d2 k = some vs2 ∧
          vs2.length = vs.length + cs.countP (fun c => c.id == k) := by
  intro cs
  induction cs with
  | nil =>
    intro d fs rs d2 fs2 rs2 h _ k vs hk
    have h2 := Option.some.inj h
    have hd : d = d2 := congrArg Prod.fst h2
    exact ⟨vs, hd ▸ hk, by simp⟩
  | cons c cs ih =>
    intro d fs rs d2 fs2 rs2 h hone k vs hk
    rw [processCols] at h
    cases hp : parse_column_value fileName idToHid c fields ufn rfmt with
    | none => rw [hp] at h; exact Option.noConfusion h
    | some out =>
      obtain ⟨value, f, r⟩ := out
      rw [hp] at h
      simp only at h
      set w : List PyVal :=
        (if (c.cardinality == "many") = true then [PyVal.vList value] else value) with hw
      have hwlen : w.length = 1 := by
        rw [hw]
        by_cases hm : (c.cardinality == "many") = true
        · simp [hm]
        · rw [if_neg hm]
          exact hone c (List.mem_cons_self _ _) (by simpa using hm) (value, f, r) hp
      have hstep : dictGet
          (if (c.cardinality == "many") = true then dictAppend d c.id [PyVal.vList value]
            else dictAppend d c.id value) k =
          dictGet (dictAppend d c.id w) k := by
        rw [hw]
        by_cases hm : (c.cardinality == "many") = true <;> simp [hm]
      by_cases hck : c.id = k
      · subst hck
        have hget : dictGet
            (if (c.cardinality == "many") = true then dictAppend d c.id [PyVal.vList value]
              else dictAppend d c.id value) c.id = some (vs ++ w) := by
          rw [hstep, dictGet_dictAppend_self, hk]
          rfl
        obtain ⟨vs2, hvs2, hlen⟩ :=
          ih _ _ _ _ _ _ h (fun c2 hc2 => hone c2 (List.mem_cons_of_mem _ hc2)) c.id
            (vs ++ w) hget
        refine ⟨vs2, hvs2, ?_⟩
        rw [hlen, List.length_append, hwlen, List.countP_cons]
        simp only [beq_self_eq_true, if_true]
        omega
      · have hget : dictGet
            (if (c.cardinality == "many") = true then dictAppend d c.id [PyVal.vList value]
              else dictAppend d c.id value) k = some vs := by
          rw [hstep, dictGet_dictAppend_ne _ _ _ _ hck]
          exact hk
        obtain ⟨vs2, hvs2, hlen⟩ :=
          ih _ _ _ _ _ _ h (fun c2 hc2 => hone c2 (List.mem_cons_of_mem _ hc2)) k vs
            hget
        refine ⟨vs2, hvs2, ?_⟩
        rw [hlen, List.countP_cons]
        simp [hck]

/-- The number of entries one row appends to the column list at key k. -/
def rowContrib (columns : List ColumnDescriptor) (row_id k : String) : Nat :=
  (if row_id = k then 1 else 0) + (if "Validation Status" = k then 1 else 0) +
    columns.countP (fun c => c.id == k)

theorem processRow_keys (fileName idToHid : String → String) (ufn : Bool)
    (rfmt : String) (columns : List ColumnDescriptor) (row_id : String)
    (row : RowRecord) (st st2 : Data × List String × List String)
    (h : processRow fileName idToHid ufn rfmt columns row_id row st = some st2) :
    dictKeys st2.1 = dictKeys st.1 := by
  unfold processRow at h
  have := processCols_keys fileName idToHid ufn rfmt row.fields columns _ _ h
  simpa [dictKeys_dictAppend] using this

theorem processRow_length (fileName idToHid : String → String) (ufn : Bool)
    (rfmt : String) (columns : List ColumnDescriptor) (row_id : String)
    (row : RowRecord) (d : Data) (fs rs : List String)
    (d2 : Data) (fs2 rs2 : List String)
    (h : processRow fileName idToHid ufn rfmt columns row_id row (d, fs, rs) =
      some (d2, fs2, rs2))
    (hone : ∀ c ∈ columns, c.cardinality ≠ "many" → ∀ out,
      parse_column_value fileName idToHid c row.fields ufn rfmt = some out →
        out.1.length = 1)
    (k : String) (vs : List PyVal) (hk : dictGet d k = some vs) :
    ∃ vs2, dictGet d2 k = some vs2 ∧
      vs2.length = vs.length + rowContrib columns row_id k := by
  unfold processRow at h
  set dA := dictAppend d row_id [PyVal.vStr row.hid] with hdA
  set dB := dictAppend dA "Validation Status" [PyVal.vStr row.validationStatus] with hdB
  have hA : ∃ vsA, dictGet dA k = some vsA ∧
      vsA.length = vs.length + (if row_id = k then 1 else 0) := by
    by_cases hrk : row_id = k
    · subst hrk
      exact ⟨vs ++ [PyVal.vStr row.hid],
        by rw [hdA, dictGet_dictAppend_self, hk]; rfl, by simp⟩
    · exact ⟨vs, by rw [hdA, dictGet_dictAppend_ne _ _ _ _ hrk]; exact hk, by simp [hrk]⟩
  obtain ⟨vsA, hvsA, hlenA⟩ := hA
  have hB : ∃ vsB, dictGet dB k = some vsB ∧
      vsB.length = vsA.length + (if "Validation Status" = k then 1 else 0) := by
    by_cases hvk : "Validation Status" = k
    · subst hvk
      exact ⟨vsA ++ [PyVal.vStr row.validationStatus],
        by rw [hdB, dictGet_dictAppend_self, hvsA]; rfl, by simp⟩
    · exact ⟨vsA, by rw [hdB, dictGet_dictAppend_ne _ _ _ _ hvk]; exact hvsA,
        by simp [hvk]⟩
  obtain ⟨vsB, hvsB, hlenB⟩ := hB
  obtain ⟨vs2, hvs2, hlen2⟩ :=
    processCols_length fileName idToHid ufn rfmt row.fields columns dB fs rs d2 fs2 rs2
      h hone k vsB hvsB
  refine ⟨vs2, hvs2, ?_⟩
  rw [hlen2, hlenB, hlenA]
  unfold rowContrib
  omega

theorem assembleRows_length (fileName idToHid : String → String) (ufn : Bool)
    (rfmt : String) (columns : List ColumnDescriptor) (row_id : String) :
    ∀ (rows : List RowRecord) (st st2 : Data × List String × List String),
      assembleRows fileName idToHid ufn rfmt columns row_id rows st = some st2 →
      (∀ row ∈ rows, ∀ c ∈ columns, c.cardinality ≠ "many" → ∀ out,
        parse_column_value fileName idToHid c row.fields ufn rfmt = some out →
          out.1.length = 1) →
      ∀ k vs, dictGet st.1 k = some vs →
        ∃ vs2, dictGet st2.1 k = some vs2 ∧
          vs2.length = vs.length + rows.length * rowContrib columns row_id k := by
  intro rows
  induction rows with
  | nil =>
    intro st st2 h _ k vs hk
    rw [assembleRows] at h
    exact ⟨vs, (Option.some.inj h) ▸ hk, by simp⟩
  | cons row rows ih =>
    intro st st2 h hone k vs hk
    rw [assembleRows] at h
    cases hp : processRow fileName idToHid ufn rfmt columns row_id row st with
    | none => rw [hp] at h; exact Option.noConfusion h
    | some st1 =>
      rw [hp] at h
      obtain ⟨d, fs, rs⟩ := st
      obtain ⟨d1, fs1, rs1⟩ := st1
      obtain ⟨vs1, hvs1, hlen1⟩ :=
        processRow_length fileName idToHid ufn rfmt columns row_id row d fs rs d1 fs1
          rs1 hp (hone row (List.mem_cons_self _ _)) k vs hk
      obtain ⟨vs2, hvs2, hlen2⟩ :=
        ih _ _ h (fun r2 hr2 => hone r2 (List.mem_cons_of_mem _ hr2)) k vs1 hvs1
      refine ⟨vs2, hvs2, ?_⟩
      rw [hlen2, hlen1, List.length_cons, Nat.succ_mul]
      omega

theorem assembleRows_keys (fileName idToHid : String → String) (ufn : Bool)
    (rfmt : String) (columns : List ColumnDescriptor) (row_id : String) :
    ∀ (rows : List RowRecord) (st st2 : Data × List String × List String),
      assembleRows fileName idToHid ufn rfmt columns row_id rows st = some st2 →
      dictKeys st2.1 = dictKeys st.1 := by
  intro rows
  induction rows with
  | nil =>
    intro st st2 h
    rw [assembleRows] at h
    rw [← Option.some.inj h]
  | cons row rows ih =>
    intro st st2 h
    rw [assembleRows] at h
    cases hp : processRow fileName idToHid ufn rfmt columns row_id row st with
    | none => rw [hp] at h; exact Option.noConfusion h
    | some st1 =>
      rw [hp] at h
      rw [ih _ _ h, processRow_keys fileName idToHid ufn rfmt columns row_id row st st1 hp]

/-! ### Structure of the initial data dictionary -/

theorem mem_keys_foldl_dictSet (val : ColumnDescriptor → α) :
    ∀ (cols : List ColumnDescriptor) (d : List (String × α)) (k : String),
      k ∈ dictKeys (cols.foldl (fun d c => dictSet d c.id (val c)) d) →
      k ∈ dictKeys d ∨ k ∈ cols.map (fun c => c.id) := by
  intro cols
  induction cols with
  | nil => intro d k h; exact Or.inl h
  | cons c cs ih =>
    intro d k h
    rw [List.foldl_cons] at h
    rcases ih _ k h with h | h
    · rw [dictKeys_dictSet] at h
      by_cases hc : c.id ∈ dictKeys d
      · rw [if_pos hc] at h
        exact Or.inl h
      · rw [if_neg hc] at h
        rcases List.mem_append.mp h with h | h
        · exact Or.inl h
        · simp only [List.mem_singleton] at h
          exact Or.inr (by simp [h])
    · exact Or.inr (List.mem_cons_of_mem _ h)

theorem mem_keys_initData (columns : List ColumnDescriptor) (row_id k : String)
    (h : k ∈ dictKeys (initData columns row_id)) :
    k = "Validation Status" ∨ k = row_id ∨ k ∈ columns.map (fun c => c.id) := by
  unfold initData at h
  rcases mem_keys_foldl_dictSet (fun _ => []) columns _ k h with h | h
  · by_cases h1 : "Validation Status" = row_id
    · simp [dictSet_nil, dictSet_cons, dictKeys, h1] at h
      exact Or.inr (Or.inl h)
    · simp [dictSet_nil, dictSet_cons, dictKeys, h1] at h
      rcases h with h | h
      · exact Or.inl h
      · exact Or.inr (Or.inl h)
  · exact Or.inr (Or.inr h)

theorem initData_values (columns : List ColumnDescriptor) (row_id : String) :
    ∀ p ∈ initData columns row_id, p.2 = ([] : List PyVal) := by
  unfold initData
  have base : ∀ p ∈ dictSet (dictSet ([] : Data) "Validation Status" []) row_id [],
      p.2 = ([] : List PyVal) := by
    intro p hp
    rcases mem_dictSet _ _ _ _ hp with hp | hp
    · rcases mem_dictSet _ _ _ _ hp with hp | hp
      · cases hp
      · rw [hp]
    · rw [hp]
  generalize hd : dictSet (dictSet ([] : Data) "Validation Status" []) row_id [] = d0
  rw [hd] at base
  clear hd
  induction columns generalizing d0 with
  | nil => exact base
  | cons c cs ih =>
    rw [List.foldl_cons]
    apply ih
    intro p hp
    rcases mem_dictSet _ _ _ _ hp with hp | hp
    · exact base p hp
    · rw [hp]

theorem dictKeys_nodup_initData (columns : List ColumnDescriptor) (row_id : String) :
    (dictKeys (initData columns row_id)).Nodup := by
  unfold initData
  have base : (dictKeys (dictSet (dictSet ([] : Data) "Validation Status" []) row_id
      [])).Nodup :=
    dictKeys_nodup_dictSet _ _ _ (dictKeys_nodup_dictSet _ _ _ (by simp [dictKeys]))
  generalize hd : dictSet (dictSet ([] : Data) "Validation Status" []) row_id [] = d0
  rw [hd] at base
  clear hd
  induction columns generalizing d0 with
  | nil => exact base
  | cons c cs ih =>
    rw [List.foldl_cons]
    exact ih _ (dictKeys_nodup_dictSet _ _ _ base)

theorem dictKeys_cons (p : String × α) (d : List (String × α)) :
    dictKeys (p :: d) = p.1 :: dictKeys d := rfl

theorem dictGet_isSome_of_mem_keys (d : List (String × α)) (k : String)
    (h : k ∈ dictKeys d) : (dictGet d k).isSome := by
  induction d with
  | nil => cases h
  | cons q ps ih =>
    rw [dictGet_cons]
    by_cases hq : q.1 = k
    · simp [hq]
    · rw [if_neg (by simpa using hq)]
      rw [dictKeys_cons] at h
      rcases List.mem_cons.mp h with hh | hh
      · exact absurd hh.symm hq
      · exact ih hh

theorem countP_id_eq_one (columns : List ColumnDescriptor) (k : String)
    (hnd : (columns.map (fun c => c.id)).Nodup) (hk : k ∈ columns.map (fun c => c.id)) :
    columns.countP (fun c => c.id == k) = 1 := by
  induction columns with
  | nil => cases hk
  | cons c cs ih =>
    rw [List.map_cons] at hnd hk
    rw [List.countP_cons]
    by_cases hc : c.id = k
    · have hnot : k ∉ cs.map (fun c => c.id) := hc ▸ (List.nodup_cons.mp hnd).1
      have hz : cs.countP (fun c => c.id == k) = 0 := by
        rw [List.countP_eq_zero]
        intro c2 hc2
        simp only [beq_iff_eq]
        intro he
        exact hnot (he ▸ List.mem_map.mpr ⟨c2, hc2, rfl⟩)
      simp [hz, hc]
    · rcases List.mem_cons.mp hk with hk | hk
      · exact absurd hk.symm hc
      · rw [ih (List.nodup_cons.mp hnd).2 hk]
        simp [hc]

/-- The central length invariant: when every cardinality-one cell resolves
to exactly one element and the column ids avoid the reserved keys and each
other, every column list of the assembled data dictionary has exactly one
entry per database row. -/
theorem assembleData_lengths (fileName idToHid : String → String)
    (columns : List ColumnDescriptor) (row_id : String) (rows : List RowRecord)
    (ufn : Bool) (rfmt : String) (data : Data) (fids rids : List String)
    (hres : assembleData fileName idToHid columns row_id rows ufn rfmt =
      some (data, fids, rids))
    (hnd : (columns.map (fun c => c.id)).Nodup)
    (hvs : "Validation Status" ∉ columns.map (fun c => c.id))
    (hrid : row_id ∉ columns.map (fun c => c.id))
    (hvr : row_id ≠ "Validation Status")
    (hone : ∀ row ∈ rows, ∀ c ∈ columns, c.cardinality ≠ "many" → ∀ out,
      parse_column_value fileName idToHid c row.fields ufn rfmt = some out →
        out.1.length = 1) :
    ∀ p ∈ data, p.2.length = rows.length := by
  intro p hp
  unfold assembleData at hres
  have hkeys : dictKeys data = dictKeys (initData columns row_id) := by
    have := assembleRows_keys fileName idToHid ufn rfmt columns row_id rows _ _ hres
    simpa using this
  have hndk : (dictKeys data).Nodup := hkeys ▸ dictKeys_nodup_initData columns row_id
  have hget : dictGet data p.1 = some p.2 := dictGet_of_mem_of_nodup data p hp hndk
  have hpk : p.1 ∈ dictKeys (initData columns row_id) := by
    rw [← hkeys]
    simp only [dictKeys]
    exact List.mem_map.mpr ⟨p, hp, rfl⟩
  have hinit : dictGet (initData columns row_id) p.1 = some [] := by
    cases hg : dictGet (initData columns row_id) p.1 with
    | none =>
      have := dictGet_isSome_of_mem_keys _ _ hpk
      rw [hg] at this
      exact Bool.noConfusion this
    | some v =>
      have hv : v = [] := initData_values columns row_id _ (dictGet_mem _ _ _ hg)
      rw [hv]
  obtain ⟨vs2, hvs2, hlen⟩ :=
    assembleRows_length fileName idToHid ufn rfmt columns row_id rows _ _ hres hone
      p.1 [] hinit
  simp only at hvs2
  rw [hget] at hvs2
  have hv : p.2 = vs2 := Option.some.inj hvs2
  rw [hv, hlen, List.length_nil, Nat.zero_add]
  have hcontrib : rowContrib columns row_id p.1 = 1 := by
    rcases mem_keys_initData columns row_id p.1 hpk with hc | hc | hc
    · unfold rowContrib
      rw [hc]
      have h1 : row_id ≠ "Validation Status" := hvr
      have h2 : columns.countP (fun c => c.id == "Validation Status") = 0 := by
        rw [List.countP_eq_zero]
        intro c2 hc2
        simp only [beq_iff_eq]
        intro he
        exact hvs (he ▸ List.mem_map.mpr ⟨c2, hc2, rfl⟩)
      simp [h1, h2]
    · unfold rowContrib
      rw [hc]
      have h2 : columns.countP (fun c => c.id == row_id) = 0 := by
        rw [List.countP_eq_zero]
        intro c2 hc2
        simp only [beq_iff_eq]
        intro he
        exact hrid (he ▸ List.mem_map.mpr ⟨c2, hc2, rfl⟩)
      simp [Ne.symm hvr, h2]
    · unfold rowContrib
      have h1 : row_id ≠ p.1 := fun he => hrid (he ▸ hc)
      have h2 : "Validation Status" ≠ p.1 := fun he => hvs (he ▸ hc)
      rw [countP_id_eq_one columns p.1 hnd hc]
      simp [h1, h2]
  rw [hcontrib, Nat.mul_one]

/-! ### Length preservation through the dataframe cleanup pipeline -/

theorem pdCategoricalValues_length (categories : List String) :
    ∀ (vs ws : List PyVal), pdCategoricalValues categories vs = some ws →
      ws.length = vs.length := by
  intro vs
  induction vs with
  | nil =>
    intro ws h
    rw [pdCategoricalValues] at h
    rw [← Option.some.inj h]
  | cons v vs ih =>
    intro ws h
    rw [pdCategoricalValues] at h
    cases h1 : pdCategoricalValue categories v with
    | none => rw [h1] at h; exact Option.noConfusion h
    | some w =>
      cases h2 : pdCategoricalValues categories vs with
      | none => rw [h1, h2] at h; exact Option.noConfusion h
      | some ws0 =>
        rw [h1, h2] at h
        rw [← Option.some.inj h, List.length_cons, List.length_cons, ih ws0 h2]

theorem pdCategorical_length (values : List PyVal) (categories : List String)
    (ws : List PyVal) (info : CategoricalInfo)
    (h : pdCategorical values categories = some (ws, info)) :
    ws.length = values.length := by
  unfold pdCategorical at h
  cases hv : pdCategoricalValues categories values with
  | none => rw [hv] at h; exact Option.noConfusion h
  | some vs2 =>
    rw [hv] at h
    have h2 := Option.some.inj h
    have hw : vs2 = ws := congrArg Prod.fst h2
    rw [← hw]
    exact pdCategoricalValues_length categories values vs2 hv

theorem applyCategoricals_length (n : Nat) :
    ∀ (cs : List ColumnDescriptor) (cols cols2 : List (String × DFColumn)),
      applyCategoricals cs cols = some cols2 →
      (∀ p ∈ cols, p.2.values.length = n) →
      ∀ p ∈ cols2, p.2.values.length = n := by
  intro cs
  induction cs with
  | nil =>
    intro cols cols2 h hall
    rw [applyCategoricals] at h
    exact (Option.some.inj h) ▸ hall
  | cons c cs ih =>
    intro cols cols2 h hall
    rw [applyCategoricals] at h
    by_cases hsel : (c.type == "select" && c.cardinality == "one") = true
    · rw [if_pos hsel] at h
      cases hopts : c.configSelectOptions with
      | none => rw [hopts] at h; exact Option.noConfusion h
      | some opts =>
        cases hcol : dictGet cols c.id with
        | none => rw [hopts, hcol] at h; exact Option.noConfusion h
        | some col =>
          rw [hopts, hcol] at h
          simp only at h
          cases hcat : pdCategorical col.values opts with
          | none => rw [hcat] at h; exact Option.noConfusion h
          | some out =>
            obtain ⟨vs, info⟩ := out
            rw [hcat] at h
            apply ih _ _ h
            intro p hp
            rcases mem_dictSet _ _ _ _ hp with hp | hp
            · exact hall p hp
            · rw [hp]
              have h1 := pdCategorical_length col.values opts vs info hcat
              have h2 := hall _ (dictGet_mem _ _ _ hcol)
              simpa [h1] using h2
    · rw [if_neg hsel] at h
      exact ih _ _ h hall

theorem renameCols_values (mapper : List (String × String))
    (cols : List (String × DFColumn)) :
    ∀ p ∈ renameCols mapper cols, ∃ q ∈ cols, p.2 = q.2 := by
  intro p hp
  obtain ⟨q, hq, he⟩ := List.mem_map.mp hp
  exact ⟨q, hq, by rw [← he]⟩

theorem wipeAttrs_values (cols : List (String × DFColumn)) :
    ∀ p ∈ wipeAttrs cols, ∃ q ∈ cols, p.2.values = q.2.values := by
  intro p hp
  obtain ⟨q, hq, he⟩ := List.mem_map.mp hp
  exact ⟨q, hq, by rw [← he]⟩

theorem mem_dictUpdateFirst (l : List (String × α)) (k : String) (f : α → α) :
    ∀ p ∈ dictUpdateFirst l k f, p ∈ l ∨ ∃ q ∈ l, p = (q.1, f q.2) := by
  induction l with
  | nil => intro p hp; cases hp
  | cons q ps ih =>
    intro p hp
    rw [dictUpdateFirst] at hp
    by_cases hq : q.1 = k
    · rw [if_pos (by simpa using hq)] at hp
      rcases List.mem_cons.mp hp with hp | hp
      · exact Or.inr ⟨q, List.mem_cons_self _ _, hp⟩
      · exact Or.inl (List.mem_cons_of_mem _ hp)
    · rw [if_neg (by simpa using hq)] at hp
      rcases List.mem_cons.mp hp with hp | hp
      · exact Or.inl (hp ▸ List.mem_cons_self _ _)
      · rcases ih p hp with hp | ⟨r, hr, he⟩
        · exact Or.inl (List.mem_cons_of_mem _ hp)
        · exact Or.inr ⟨r, List.mem_cons_of_mem _ hr, he⟩

theorem attachAttrs_values :
    ∀ (cs : List ColumnDescriptor) (cols cols2 : List (String × DFColumn)),
      attachAttrs cs cols = some cols2 →
      ∀ p ∈ cols2, ∃ q ∈ cols, p.2.values = q.2.values := by
  intro cs
  induction cs with
  | nil =>
    intro cols cols2 h p hp
    rw [attachAttrs] at h
    exact ⟨p, (Option.some.inj h) ▸ hp, rfl⟩
  | cons c cs ih =>
    intro cols cols2 h p hp
    rw [attachAttrs] at h
    by_cases hc : (dictGet cols c.name).isSome
    · rw [if_pos hc] at h
      obtain ⟨q, hq, he⟩ := ih _ _ h p hp
      rcases mem_dictUpdateFirst _ _ _ q hq with hq2 | ⟨r, hr, he2⟩
      · exact ⟨q, hq2, he⟩
      · exact ⟨r, hr, by rw [he, he2]⟩
    · rw [if_neg hc] at h
      exact Option.noConfusion h

theorem type_and_cleanup_length (n : Nat) (df : DataFrame)
    (columns : List ColumnDescriptor) (df2 : DataFrame)
    (h : type_and_cleanup_dataframe df columns = some df2)
    (hall : ∀ p ∈ df.cols, p.2.values.length = n) :
    ∀ p ∈ df2.cols, p.2.values.length = n := by
  unfold type_and_cleanup_dataframe at h
  cases hcat : applyCategoricals columns df.cols with
  | none => rw [hcat] at h; exact Option.noConfusion h
  | some cols1 =>
    rw [hcat] at h
    simp only at h
    cases hatt : attachAttrs columns (wipeAttrs (renameCols (columnMapper columns) cols1)) with
    | none => rw [hatt] at h; exact Option.noConfusion h
    | some cols3 =>
      rw [hatt] at h
      simp only at h
      by_cases hvs : (dictGet cols3 "Validation Status").isSome
      · rw [if_pos hvs] at h
        have hdf2 : df2.cols = dictUpdateFirst cols3 "Validation Status"
            (fun col => { col with attrs := ColAttrs.validationStatus }) := by
          rw [← Option.some.inj h]
        intro p hp
        rw [hdf2] at hp
        have h1 := applyCategoricals_length n columns df.cols cols1 hcat hall
        rcases mem_dictUpdateFirst _ _ _ p hp with hp2 | ⟨q, hq, he⟩
        · obtain ⟨q, hq, he⟩ := attachAttrs_values columns _ cols3 hatt p hp2
          obtain ⟨q2, hq2, he2⟩ := wipeAttrs_values _ q hq
          obtain ⟨q3, hq3, he3⟩ := renameCols_values _ _ q2 hq2
          rw [he, he2, he3]
          exact h1 q3 hq3
        · obtain ⟨q2, hq2, he2⟩ := attachAttrs_values columns _ cols3 hatt q hq
          obtain ⟨q3, hq3, he3⟩ := wipeAttrs_values _ q2 hq2
          obtain ⟨q4, hq4, he4⟩ := renameCols_values _ _ q3 hq3
          have : p.2.values = q.2.values := by rw [he]
          rw [this, he2, he3, he4]
          exact h1 q4 hq4
      · rw [if_neg hvs] at h
        exact Option.noConfusion h

theorem pdDataFrame_values (data : Data) (cols0 : List (String × DFColumn))
    (h : pdDataFrame data = some cols0) :
    ∀ p ∈ cols0, ∃ q ∈ data, p.2.values = q.2 := by
  unfold pdDataFrame at h
  cases data with
  | nil =>
    intro p hp
    rw [← Option.some.inj h] at hp
    cases hp
  | cons q qs =>
    simp only at h
    by_cases hall : qs.all (fun r => r.2.length == q.2.length)
    · rw [if_pos hall] at h
      intro p hp
      rw [← Option.some.inj h] at hp
      obtain ⟨r, hr, he⟩ := List.mem_map.mp hp
      exact ⟨r, hr, by rw [← he]⟩
    · rw [if_neg hall] at h
      exact Option.noConfusion h

theorem renameDict_values (columns : List ColumnDescriptor) (data : Data) :
    ∀ p ∈ renameDict columns data, ∃ q ∈ data, p.2 = q.2 := by
  unfold renameDict
  have hgen : ∀ (ks : List String) (rd : Data),
      (∀ p ∈ rd, ∃ q ∈ data, p.2 = q.2) →
      ∀ p ∈ ks.foldl
        (fun rd key =>
          match dictGet (columnMapper columns) key, dictGet data key with
          | some new_key, some v => dictRemove (dictSet rd new_key v) key
          | _, _ => rd) rd,
        ∃ q ∈ data, p.2 = q.2 := by
    intro ks
    induction ks with
    | nil => intro rd hrd p hp; exact hrd p hp
    | cons key ks ih =>
      intro rd hrd p hp
      rw [List.foldl_cons] at hp
      apply ih _ _ p hp
      intro r hr
      cases hm : dictGet (columnMapper columns) key with
      | none => rw [hm] at hr; exact hrd r hr
      | some nk =>
        cases hd : dictGet data key with
        | none => rw [hm, hd] at hr; exact hrd r hr
        | some v =>
          rw [hm, hd] at hr
          have hr2 : r ∈ dictSet rd nk v := List.mem_of_mem_filter hr
          rcases mem_dictSet _ _ _ _ hr2 with hr3 | hr3
          · exact hrd r hr3
          · exact ⟨(key, v), dictGet_mem _ _ _ hd, by rw [hr3]⟩
  intro p hp
  exact hgen _ data (fun p hp => ⟨p, hp, rfl⟩) p hp

/-! ### C1: column lengths of the assembled table -/

/-- Example database with one single-cardinality select column. -/
def exDb : DatabaseResponse :=
  { id := "db1", hid := "mydb", hidPref := "mydb", type := "database",
    cols := [exSelectColumn] }

/-- Example row whose select cell carries two selected options although
the column is declared cardinality one. -/
def exRowTwoOptions : RowRecord :=
  { id := "r1", hid := "mydb-1", validationStatus := "valid",
    fields := [{ columnId := "c1", value := PyVal.vSelect ["A", "B"] }] }

/-- Example row whose select cell carries exactly one selected option. -/
def exRowOneOption : RowRecord :=
  { id := "r1", hid := "mydb-1", validationStatus := "valid",
    fields := [{ columnId := "c1", value := PyVal.vSelect ["A"] }] }

/-- C1 counterexample: one database row whose cardinality-one select cell
resolves to two values.  The dict-shaped result carries a column with two
entries against one row, and the dataframe shape fails outright in the
pandas constructor, so the every-column-has-len-rows invariant does not
survive a cardinality-one cell of length two. -/
theorem table_columns_length_counterexample :
    get_dataframe (fun _ => "") (fun _ => "") exDb [exRowTwoOptions] false "human-id"
        "dict" =
      some (DatabaseReturn.dict
        [("Validation Status", [PyVal.vStr "valid"]),
         ("mydb-id", [PyVal.vStr "mydb-1"]),
         ("Select Col", [PyVal.vStr "A", PyVal.vStr "B"])]) ∧
    [PyVal.vStr "A", PyVal.vStr "B"].length ≠ [exRowTwoOptions].length ∧
    get_dataframe (fun _ => "") (fun _ => "") exDb [exRowTwoOptions] false "human-id"
        "dataframe" = none := ⟨rfl, by decide, rfl⟩

/-- C1 amended: every column of the result of get_dataframe (both return
shapes) has exactly one entry per database row, provided every
cardinality-one cell resolves to exactly one element and the column ids
are pairwise distinct and distinct from the two reserved keys. -/
theorem table_columns_length_amended (fileName idToHid : String → String)
    (response : DatabaseResponse) (rows : List RowRecord) (ufn : Bool)
    (rfmt rt : String) (result : DatabaseReturn)
    (hres : get_dataframe fileName idToHid response rows ufn rfmt rt = some result)
    (hnd : (response.cols.map (fun c => c.id)).Nodup)
    (hvs : "Validation Status" ∉ response.cols.map (fun c => c.id))
    (hrid : response.hidPref ++ "-id" ∉ response.cols.map (fun c => c.id))
    (hvr : response.hidPref ++ "-id" ≠ "Validation Status")
    (hone : ∀ row ∈ rows, ∀ c ∈ response.cols, c.cardinality ≠ "many" → ∀ out,
      parse_column_value fileName idToHid c row.fields ufn rfmt = some out →
        out.1.length = 1) :
    (match result with
      | DatabaseReturn.dataframe df => ∀ p ∈ df.cols, p.2.values.length = rows.length
      | DatabaseReturn.dict d => ∀ p ∈ d, p.2.length = rows.length) := by
  unfold get_dataframe at hres
  by_cases hty : (response.type != "database") = true
  · rw [if_pos hty] at hres
    exact Option.noConfusion hres
  · rw [if_neg hty] at hres
    simp only at hres
    cases hasm : assembleData fileName idToHid response.cols
        (response.hidPref ++ "-id") rows ufn rfmt with
    | none => rw [hasm] at hres; exact Option.noConfusion hres
    | some out =>
      obtain ⟨data, fids, rids⟩ := out
      rw [hasm] at hres
      simp only at hres
      have hlens : ∀ p ∈ data, p.2.length = rows.length :=
        assembleData_lengths fileName idToHid response.cols
          (response.hidPref ++ "-id") rows ufn rfmt data fids rids hasm hnd hvs hrid
          hvr hone
      by_cases hrt : (rt == "dataframe") = true
      · rw [if_pos hrt] at hres
        cases hpd : pdDataFrame data with
        | none => rw [hpd] at hres; exact Option.noConfusion hres
        | some cols0 =>
          rw [hpd] at hres
          simp only at hres
          obtain ⟨df2, htc, hr⟩ := Option.map_eq_some'.mp hres
          subst hr
          show ∀ p ∈ df2.cols, p.2.values.length = rows.length
          apply type_and_cleanup_length rows.length _ response.cols df2 htc
          intro p hp
          obtain ⟨q, hq, he⟩ := pdDataFrame_values data cols0 hpd p hp
          rw [he]
          exact hlens q hq
      · rw [if_neg hrt] at hres
        have hr := Option.some.inj hres
        subst hr
        show ∀ p ∈ renameDict response.cols data, p.2.length = rows.length
        intro p hp
        obtain ⟨q, hq, he⟩ := renameDict_values response.cols data p hp
        rw [he]
        exact hlens q hq

/-- C1 witness: the amended theorem applied to a one-row database whose
single select cell resolves to one value. -/
theorem table_columns_length_witness :
    ∃ result,
      get_dataframe (fun _ => "") (fun _ => "") exDb [exRowOneOption] false "human-id"
          "dict" = some result ∧
      (match result with
        | DatabaseReturn.dataframe df =>
          ∀ p ∈ df.cols, p.2.values.length = [exRowOneOption].length
        | DatabaseReturn.dict d => ∀ p ∈ d, p.2.length = [exRowOneOption].length) := by
  refine ⟨_, rfl, ?_⟩
  apply table_columns_length_amended (fun _ => "") (fun _ => "") exDb [exRowOneOption]
    false "human-id" "dict" _ rfl (by decide) (by decide) (by decide) (by decide)
  intro row hrow c hc hm out hout
  have hrow2 : row = exRowOneOption := by simpa using hrow
  have hc2 : c = exSelectColumn := by
    have : c ∈ exDb.cols := hc
    simpa [exDb] using this
  subst hrow2
  subst hc2
  have hp : parse_column_value (fun _ => "") (fun _ => "") exSelectColumn
      exRowOneOption.fields false "human-id" = some ([PyVal.vStr "A"], [], []) := rfl
  rw [hp] at hout
  rw [← Option.some.inj hout]
  rfl

/-! ### C9: download_database side effects -/

/-- Example file column of cardinality many. -/
def exFileColumn : ColumnDescriptor :=
  { id := "cf", name := "Files", key := "cfk", type := "file",
    cardinality := "many", configSelectOptions := none,
    referenceDatabaseRowId := none }

/-- Example database holding the file column. -/
def exFileDb : DatabaseResponse :=
  { id := "db2", hid := "filedb", hidPref := "filedb", type := "database",
    cols := [exFileColumn] }

/-- Example row referencing two distinct files. -/
def exFileRow : RowRecord :=
  { id := "r1", hid := "filedb-1", validationStatus := "valid",
    fields := [{ columnId := "cf", value := PyVal.vFile ["f1", "f2"] }] }

/-- C9: when the assembled dataframe's deduplicated file_ids attribute
holds exactly two ids, download_database with include_files performs
exactly two file-download collaborator calls and exactly one CSV write,
named with the database HID. -/
theorem download_database_effects (fileName idToHid : String → String)
    (source : DatabaseResponse) (rows : List RowRecord) (destination : String)
    (df : DataFrame)
    (hdf : get_dataframe fileName idToHid source rows true "human-id" "dataframe" =
      some (DatabaseReturn.dataframe df))
    (hn : df.attrs.file_ids.length = 2) :
    ∃ effs,
      download_database fileName idToHid true source rows destination true =
        some effs ∧
      (effs.filter isDownloadEffect).length = 2 ∧
      effs.filter isCsvEffect =
        [Effect.writeCsv destination (source.hid ++ ".csv")] := by
  refine ⟨df.attrs.file_ids.map (fun fid => Effect.downloadFile fid destination) ++
    [Effect.writeCsv destination (source.hid ++ ".csv")], ?_, ?_, ?_⟩
  · unfold download_database
    rw [hdf]
    simp
  · rw [List.filter_append]
    have h1 : (df.attrs.file_ids.map
        (fun fid => Effect.downloadFile fid destination)).filter isDownloadEffect =
        df.attrs.file_ids.map (fun fid => Effect.downloadFile fid destination) := by
      rw [List.filter_eq_self]
      intro e he
      obtain ⟨fid, _, hfe⟩ := List.mem_map.mp he
      rw [← hfe]
      rfl
    have h2 : ([Effect.writeCsv destination (source.hid ++ ".csv")]).filter
        isDownloadEffect = [] := rfl
    rw [h1, h2, List.append_nil, List.length_map, hn]
  · rw [List.filter_append]
    have h1 : (df.attrs.file_ids.map
        (fun fid => Effect.downloadFile fid destination)).filter isCsvEffect = [] := by
      rw [List.filter_eq_nil_iff]
      intro e he
      obtain ⟨fid, _, hfe⟩ := List.mem_map.mp he
      rw [← hfe]
      simp [isCsvEffect]
    rw [h1, List.nil_append]
    rfl

/-- C9 witness: the effect count theorem applied to a database whose one
row references the two files f1 and f2. -/
theorem download_database_effects_witness :
    ∃ effs,
      download_database (fun _ => "name") (fun i => i) true exFileDb [exFileRow]
          "dest" true = some effs ∧
      (effs.filter isDownloadEffect).length = 2 ∧
      effs.filter isCsvEffect = [Effect.writeCsv "dest" ("filedb" ++ ".csv")] := by
  have := download_database_effects (fun _ => "name") (fun i => i) exFileDb
    [exFileRow] "dest" _ rfl (by decide)
  simpa using this

/-! ### Lemmas about get_tree -/

theorem enumFrom_filter_map_snd (Q : α → Bool) :
    ∀ (n : Nat) (l : List α),
      ((List.enumFrom n l).filter (fun p => Q p.2)).map Prod.snd = l.filter Q := by
  intro n l
  induction l generalizing n with
  | nil => rfl
  | cons a l ih =>
    rw [show List.enumFrom n (a :: l) = (n, a) :: List.enumFrom (n + 1) l from rfl,
      List.filter_cons, List.filter_cons]
    by_cases hq : Q a
    · simp only [hq, if_true]
      rw [List.map_cons, ih]
    · simp only [hq, if_false]
      exact ih (n + 1)

theorem enum_filter_map_snd (Q : α → Bool) (l : List α) :
    ((l.enum.filter (fun p => Q p.2)).map Prod.snd) = l.filter Q :=
  enumFrom_filter_map_snd Q 0 l

/-- C3: get_tree returns the unique parentId-null object of the record
set it works on as the root, and fails whenever the number of such
objects differs from one. -/
theorem tree_root_selection (include_rows : Bool) (allObjects : List TreeObj) :
    (((treeObjects include_rows allObjects).filter
        (fun o => o.parentId == none)).length = 1 →
      ∃ r, (treeObjects include_rows allObjects).filter
          (fun o => o.parentId == none) = [r] ∧
        (get_tree include_rows allObjects).map
            (fun t => (t.objects, t.objects[t.root]?)) =
          some (treeObjects include_rows allObjects, some r) ∧
        r.parentId = none) ∧
    (((treeObjects include_rows allObjects).filter
        (fun o => o.parentId == none)).length ≠ 1 →
      get_tree include_rows allObjects = none) := by
  have hmap := enum_filter_map_snd (fun o : TreeObj => o.parentId == none)
    (treeObjects include_rows allObjects)
  have hlen : ((treeObjects include_rows allObjects).enum.filter
      (fun p => p.2.parentId == none)).length =
      ((treeObjects include_rows allObjects).filter
        (fun o => o.parentId == none)).length := by
    rw [← hmap, List.length_map]
  constructor
  · intro h1
    obtain ⟨p, hp⟩ := List.length_eq_one.mp (hlen.trans h1)
    refine ⟨p.2, ?_, ?_, ?_⟩
    · rw [← hmap, hp]
      rfl
    · have hpm : p ∈ (treeObjects include_rows allObjects).enum :=
        List.mem_of_mem_filter (hp ▸ List.mem_singleton_self p)
      have hget : (treeObjects include_rows allObjects)[p.1]? = some p.2 := by
        obtain ⟨i, x⟩ := p
        exact List.mk_mem_enum_iff_getElem?.mp hpm
      simp only [get_tree]
      rw [hp]
      exact congrArg (fun x => some (treeObjects include_rows allObjects, x)) hget
    · have hpf := List.of_mem_filter (hp ▸ List.mem_singleton_self p)
      simpa using hpf
  · intro h1
    have h2 : ((treeObjects include_rows allObjects).enum.filter
        (fun p => p.2.parentId == none)).length ≠ 1 := fun he => h1 (hlen ▸ he)
    simp only [get_tree]
    rcases hE : (treeObjects include_rows allObjects).enum.filter
        (fun p => p.2.parentId == none) with _ | ⟨q, _ | ⟨q2, rest⟩⟩
    · rw [hE]
    · exact absurd (by rw [hE]; rfl) h2
    · rw [hE]

/-- C3 witness: the root-selection theorem applied to a record set with
exactly one parentId-null object. -/
theorem tree_root_selection_witness :
    ∃ r, (treeObjects true
        [{ id := "w0", parentId := none, type := "workspace" },
         { id := "d1", parentId := some "w0", type := "database" }]).filter
        (fun o => o.parentId == none) = [r] ∧
      (get_tree true
        [{ id := "w0", parentId := none, type := "workspace" },
         { id := "d1", parentId := some "w0", type := "database" }]).map
          (fun t => (t.objects, t.objects[t.root]?)) =
        some (treeObjects true
          [{ id := "w0", parentId := none, type := "workspace" },
           { id := "d1", parentId := some "w0", type := "database" }], some r) ∧
      r.parentId = none :=
  (tree_root_selection true
    [{ id := "w0", parentId := none, type := "workspace" },
     { id := "d1", parentId := some "w0", type := "database" }]).1 (by decide)

theorem add_children_length (cs : List (Option (List (Nat × TreeObj))))
    (node : Nat × TreeObj) (cands : List (Nat × TreeObj)) :
    (add_children cs node cands).length = cs.length :=
  List.length_set cs node.1 _

theorem foldl_add_children_length (cands : List (Nat × TreeObj)) :
    ∀ (J : List (Nat × TreeObj)) (cs : List (Option (List (Nat × TreeObj)))),
      (J.foldl (fun cs p => add_children cs p cands) cs).length = cs.length := by
  intro J
  induction J with
  | nil => intro cs; rfl
  | cons p J ih =>
    intro cs
    rw [List.foldl_cons, ih, add_children_length]

theorem foldl_set_empty_length :
    ∀ (J : List (Nat × TreeObj)) (cs : List (Option (List (Nat × TreeObj)))),
      (J.foldl (fun cs p => cs.set p.1 (some [])) cs).length = cs.length := by
  intro J
  induction J with
  | nil => intro cs; rfl
  | cons p J ih =>
    intro cs
    rw [List.foldl_cons, ih, List.length_set]

/-- Running _add_children over a list of nodes with pairwise distinct
positions: the children entry of a visited node is its own filter of the
candidate list; entries of unvisited positions are untouched. -/
theorem foldl_add_children_get (cands : List (Nat × TreeObj)) :
    ∀ (J : List (Nat × TreeObj)) (cs : List (Option (List (Nat × TreeObj))))
      (hnd : (J.map Prod.fst).Nodup) (i : Nat),
      (J.foldl (fun cs p => add_children cs p cands) cs).get? i =
        match J.find? (fun p => p.1 == i) with
        | some p =>
          if i < cs.length then
            some (some (cands.filter (fun q => q.2.parentId == some p.2.id)))
          else none
        | none => cs.get? i := by
  intro J
  induction J with
  | nil => intro cs hnd i; rfl
  | cons p J ih =>
    intro cs hnd i
    rw [List.map_cons] at hnd
    have hnd2 := (List.nodup_cons.mp hnd).2
    have hnmem := (List.nodup_cons.mp hnd).1
    rw [List.foldl_cons]
    by_cases hip : p.1 = i
    · subst hip
      have hfind : J.find? (fun q => q.1 == p.1) = none := by
        rw [List.find?_eq_none]
        intro q hq
        simp only [beq_iff_eq]
        intro he
        exact hnmem (List.mem_map.mpr ⟨q, hq, he⟩)
      rw [ih _ hnd2 p.1, hfind, List.find?_cons_of_pos _ (by simp)]
      show (add_children cs p cands).get? p.1 =
        if p.1 < cs.length then
          some (some (cands.filter (fun q => q.2.parentId == some p.2.id)))
        else none
      unfold add_children
      by_cases hlt : p.1 < cs.length
      · rw [List.get?_set_eq_of_lt _ hlt, if_pos hlt]
      · rw [if_neg hlt, List.get?_eq_none.mpr (by rw [List.length_set]; omega)]
    · rw [ih _ hnd2 i, List.find?_cons_of_neg _ (by simp [hip])]
      cases hf : J.find? (fun q => q.1 == i) with
      | some q =>
        show (if i < (add_children cs p cands).length then
            some (some (cands.filter (fun r => r.2.parentId == some q.2.id)))
          else none) =
          if i < cs.length then
            some (some (cands.filter (fun r => r.2.parentId == some q.2.id)))
          else none
        rw [add_children_length]
      | none =>
        show (add_children cs p cands).get? i = cs.get? i
        exact List.get?_set_ne _ _ hip

/-- Positions appearing in a type filter of the enumeration are pairwise
distinct. -/
theorem enum_filter_fst_nodup (l : List TreeObj) (Q : Nat × TreeObj → Bool) :
    ((l.enum.filter Q).map Prod.fst).Nodup := by
  have h1 : List.Sublist ((l.enum.filter Q).map Prod.fst) (l.enum.map Prod.fst) :=
    List.Sublist.map Prod.fst (List.filter_sublist l.enum)
  rw [List.enum_map_fst] at h1
  exact List.Sublist.nodup h1 (List.nodup_range l.length)

/-- Two enumeration pairs with the same position carry the same object. -/
theorem enum_snd_eq_of_fst_eq (l : List TreeObj) (p q : Nat × TreeObj)
    (hp : p ∈ l.enum) (hq : q ∈ l.enum) (he : p.1 = q.1) : p.2 = q.2 := by
  obtain ⟨i, x⟩ := p
  obtain ⟨j, y⟩ := q
  simp only at he
  subst he
  have h1 := List.mk_mem_enum_iff_getElem?.mp hp
  have h2 := List.mk_mem_enum_iff_getElem?.mp hq
  rw [h1] at h2
  exact Option.some.inj h2

theorem enum_fst_lt (l : List TreeObj) (p : Nat × TreeObj) (hp : p ∈ l.enum) :
    p.1 < l.length := by
  obtain ⟨i, x⟩ := p
  have h1 := List.mk_mem_enum_iff_getElem?.mp hp
  by_contra hlt
  rw [List.getElem?_eq_none (by omega)] at h1
  exact Option.noConfusion h1

theorem foldl_add_children_get_none (cands : List (Nat × TreeObj))
    (J : List (Nat × TreeObj)) (cs : List (Option (List (Nat × TreeObj))))
    (hnd : (J.map Prod.fst).Nodup) (i : Nat)
    (hf : J.find? (fun p => p.1 == i) = none) :
    (J.foldl (fun cs p => add_children cs p cands) cs).get? i = cs.get? i := by
  rw [foldl_add_children_get cands J cs hnd i, hf]

theorem foldl_add_children_get_some (cands : List (Nat × TreeObj))
    (J : List (Nat × TreeObj)) (cs : List (Option (List (Nat × TreeObj))))
    (hnd : (J.map Prod.fst).Nodup) (i : Nat) (p : Nat × TreeObj)
    (hf : J.find? (fun p => p.1 == i) = some p) (hlt : i < cs.length) :
    (J.foldl (fun cs p => add_children cs p cands) cs).get? i =
      some (some (cands.filter (fun q => q.2.parentId == some p.2.id))) := by
  rw [foldl_add_children_get cands J cs hnd i, hf]
  show (if i < cs.length then
      some (some (cands.filter (fun q => q.2.parentId == some p.2.id)))
    else none) = _
  rw [if_pos hlt]

theorem enum_filter_filter_map_snd (l : List TreeObj) (Q R : TreeObj → Bool) :
    ((l.enum.filter (fun p => Q p.2)).filter (fun p => R p.2)).map Prod.snd =
      (l.filter Q).filter R := by
  rw [List.filter_filter, List.filter_filter]
  have h1 : ((l.enum.filter (fun p => R p.2 && Q p.2)).map Prod.snd) =
      l.filter (fun o => R o && Q o) := enum_filter_map_snd (fun o => R o && Q o) l
  exact h1

/-- C2 amended: in a successfully built tree (rows included), a workspace
node receives exactly the workspaces followed by the databases whose
parentId matches it, each group in input order, and a database node
receives exactly the matching rows in input order; objects of other types
are never attached, so a child list is the type-restricted parent filter,
not the full input filter. -/
theorem tree_children_characterization (allObjects : List TreeObj) (t : TreeResult)
    (h : get_tree true allObjects = some t) :
    ∀ i o, (i, o) ∈ allObjects.enum →
      (o.type = "workspace" →
        childrenAt t i = some
          ((allObjects.enum.filter (fun p => p.2.type == "workspace") ++
            allObjects.enum.filter (fun p => p.2.type == "database")).filter
            (fun p => p.2.parentId == some o.id)) ∧
        (childrenAt t i).map (List.map Prod.snd) = some
          ((allObjects.filter (fun x => x.type == "workspace")).filter
              (fun x => x.parentId == some o.id) ++
            (allObjects.filter (fun x => x.type == "database")).filter
              (fun x => x.parentId == some o.id))) ∧
      (o.type = "database" →
        childrenAt t i = some
          ((allObjects.enum.filter (fun p => p.2.type == "row")).filter
            (fun p => p.2.parentId == some o.id)) ∧
        (childrenAt t i).map (List.map Prod.snd) = some
          ((allObjects.filter (fun x => x.type == "row")).filter
            (fun x => x.parentId == some o.id))) := by
  simp only [get_tree, treeObjects, eq_self_iff_true, if_true] at h
  rcases hE : allObjects.enum.filter (fun p => p.2.parentId == none) with
    _ | ⟨rootPair, _ | ⟨q2, rest⟩⟩
  · rw [hE] at h; exact Option.noConfusion h
  · rw [hE] at h
    have ht := Option.some.inj h
    subst ht
    intro i o hmem
    have hilt : i < allObjects.length := enum_fst_lt allObjects (i, o) hmem
    have hndws := enum_filter_fst_nodup allObjects (fun p => p.2.type == "workspace")
    have hnddb := enum_filter_fst_nodup allObjects (fun p => p.2.type == "database")
    have hlen2 : (add_children
        ((allObjects.enum.filter (fun p => p.2.type == "workspace") ++
          allObjects.enum.filter (fun p => p.2.type == "database")).foldl
          (fun cs p => cs.set p.1 (some []))
          (List.replicate allObjects.length none)) rootPair
        (allObjects.enum.filter (fun p => p.2.type == "workspace"))).length =
        allObjects.length := by
      rw [add_children_length, foldl_set_empty_length, List.length_replicate]
    have hlen3 : ((allObjects.enum.filter (fun p => p.2.type == "workspace")).foldl
        (fun cs p => add_children cs p
          (allObjects.enum.filter (fun p => p.2.type == "workspace") ++
            allObjects.enum.filter (fun p => p.2.type == "database")))
        (add_children
          ((allObjects.enum.filter (fun p => p.2.type == "workspace") ++
            allObjects.enum.filter (fun p => p.2.type == "database")).foldl
            (fun cs p => cs.set p.1 (some []))
            (List.replicate allObjects.length none)) rootPair
          (allObjects.enum.filter (fun p => p.2.type == "workspace")))).length =
        allObjects.length := by
      rw [foldl_add_children_length, hlen2]
    constructor
    · intro htype
      have hwmem : (i, o) ∈ allObjects.enum.filter
          (fun p => p.2.type == "workspace") :=
        List.mem_filter.mpr ⟨hmem, by simp [htype]⟩
      have hdbnone : (allObjects.enum.filter (fun p => p.2.type == "database")).find?
          (fun p => p.1 == i) = none := by
        rw [List.find?_eq_none]
        intro q hq
        simp only [beq_iff_eq]
        intro he
        have hqo : q.2 = o := enum_snd_eq_of_fst_eq allObjects q (i, o)
          (List.mem_of_mem_filter hq) hmem he
        have hqt := List.of_mem_filter hq
        rw [hqo] at hqt
        simp [htype] at hqt
      cases hfw : (allObjects.enum.filter (fun p => p.2.type == "workspace")).find?
          (fun p => p.1 == i) with
      | none =>
        have := List.find?_eq_none.mp hfw (i, o) hwmem
        simp at this
      | some pw =>
        have hpw1 : pw.1 = i := by simpa using List.find?_some hfw
        have hpwo : pw.2 = o := enum_snd_eq_of_fst_eq allObjects pw (i, o)
          (List.mem_of_mem_filter (List.mem_of_find?_eq_some hfw)) hmem hpw1
        have hget : childrenAt
            { objects := allObjects, root := rootPair.1,
              children := (allObjects.enum.filter
                  (fun p => p.2.type == "database")).foldl
                (fun cs p => add_children cs p
                  (allObjects.enum.filter (fun p => p.2.type == "row")))
                ((allObjects.enum.filter (fun p => p.2.type == "workspace")).foldl
                  (fun cs p => add_children cs p
                    (allObjects.enum.filter (fun p => p.2.type == "workspace") ++
                      allObjects.enum.filter (fun p => p.2.type == "database")))
                  (add_children
                    ((allObjects.enum.filter (fun p => p.2.type == "workspace") ++
                      allObjects.enum.filter
                        (fun p => p.2.type == "database")).foldl
                      (fun cs p => cs.set p.1 (some []))
                      (List.replicate allObjects.length none)) rootPair
                    (allObjects.enum.filter (fun p => p.2.type == "workspace")))) } i =
            some ((allObjects.enum.filter (fun p => p.2.type == "workspace") ++
              allObjects.enum.filter (fun p => p.2.type == "database")).filter
              (fun q => q.2.parentId == some o.id)) := by
          unfold childrenAt
          simp only
          rw [foldl_add_children_get_none _ _ _ hnddb i hdbnone,
            foldl_add_children_get_some _ _ _ hndws i pw hfw (by rw [hlen2]; exact hilt)]
          rw [hpwo]
          rfl
        refine ⟨hget, ?_⟩
        rw [hget]
        simp only [Option.map_some']
        rw [List.filter_append, List.map_append,
          enum_filter_filter_map_snd allObjects (fun x => x.type == "workspace")
            (fun x => x.parentId == some o.id),
          enum_filter_filter_map_snd allObjects (fun x => x.type == "database")
            (fun x => x.parentId == some o.id)]
    · intro htype
      have hdmem : (i, o) ∈ allObjects.enum.filter
          (fun p => p.2.type == "database") :=
        List.mem_filter.mpr ⟨hmem, by simp [htype]⟩
      cases hfd : (allObjects.enum.filter (fun p => p.2.type == "database")).find?
          (fun p => p.1 == i) with
      | none =>
        have := List.find?_eq_none.mp hfd (i, o) hdmem
        simp at this
      | some pd =>
        have hpd1 : pd.1 = i := by simpa using List.find?_some hfd
        have hpdo : pd.2 = o := enum_snd_eq_of_fst_eq allObjects pd (i, o)
          (List.mem_of_mem_filter (List.mem_of_find?_eq_some hfd)) hmem hpd1
        have hget : childrenAt
            { objects := allObjects, root := rootPair.1,
              children := (allObjects.enum.filter
                  (fun p => p.2.type == "database")).foldl
                (fun cs p => add_children cs p
                  (allObjects.enum.filter (fun p => p.2.type == "row")))
                ((allObjects.enum.filter (fun p => p.2.type == "workspace")).foldl
                  (fun cs p => add_children cs p
                    (allObjects.enum.filter (fun p => p.2.type == "workspace") ++
                      allObjects.enum.filter
                        (fun p => p.2.type == "database")))
                  (add_children
                    ((allObjects.enum.filter (fun p => p.2.type == "workspace") ++
                      allObjects.enum.filter
                        (fun p => p.2.type == "database")).foldl
                      (fun cs p => cs.set p.1 (some []))
                      (List.replicate allObjects.length none)) rootPair
                    (allObjects.enum.filter (fun p => p.2.type == "workspace")))) } i =
            some ((allObjects.enum.filter (fun p => p.2.type == "row")).filter
              (fun q => q.2.parentId == some o.id)) := by
          unfold childrenAt
          simp only
          rw [foldl_add_children_get_some _ _ _ hnddb i pd hfd (by rw [hlen3]; exact hilt)]
          rw [hpdo]
          rfl
        refine ⟨hget, ?_⟩
        rw [hget]
        simp only [Option.map_some']
        rw [enum_filter_filter_map_snd allObjects (fun x => x.type == "row")
          (fun x => x.parentId == some o.id)]
  · rw [hE] at h; exact Option.noConfusion h

/-- Example root workspace. -/
def exW0Obj : TreeObj := { id := "w0", parentId := none, type := "workspace" }

/-- Example database under the root. -/
def exD1Obj : TreeObj := { id := "d1", parentId := some "w0", type := "database" }

/-- Example workspace under the root, listed after the database. -/
def exW2Obj : TreeObj := { id := "w2", parentId := some "w0", type := "workspace" }

/-- C2 counterexample: with the input order root, database d1, workspace
w2 (both children of the root), the built tree lists the root children as
[w2, d1] - workspaces first - while the objects with matching parentId
appear as [d1, w2] in the input, so the children are not in the input's
relative order. -/
theorem tree_children_counterexample :
    ∃ t, get_tree true [exW0Obj, exD1Obj, exW2Obj] = some t ∧
      t.root = 0 ∧
      (childrenAt t 0).map (List.map Prod.snd) = some [exW2Obj, exD1Obj] ∧
      [exW0Obj, exD1Obj, exW2Obj].filter
        (fun x => x.parentId == some exW0Obj.id) = [exD1Obj, exW2Obj] ∧
      ([exW2Obj, exD1Obj] : List TreeObj) ≠ [exD1Obj, exW2Obj] :=
  ⟨_, rfl, rfl, by decide, by decide, by decide⟩

/-- C2 witness: the characterization theorem applied at the root
workspace of the example record set. -/
theorem tree_children_characterization_witness :
    ∃ t, get_tree true [exW0Obj, exD1Obj, exW2Obj] = some t ∧
      childrenAt t 0 = some [(2, exW2Obj), (1, exD1Obj)] ∧
      (childrenAt t 0).map (List.map Prod.snd) = some [exW2Obj, exD1Obj] := by
  refine ⟨_, rfl, ?_, ?_⟩
  · exact ((tree_children_characterization [exW0Obj, exD1Obj, exW2Obj] _ rfl 0 exW0Obj
      (by decide)).1 (by decide)).1
  · exact ((tree_children_characterization [exW0Obj, exD1Obj, exW2Obj] _ rfl 0 exW0Obj
      (by decide)).1 (by decide)).2

/-! ### C10: get_row_data key membership -/

theorem isSome_dictGet_dictSet (d : List (String × α)) (k k2 : String) (v : α) :
    (dictGet (dictSet d k v) k2).isSome = true ↔
      (k2 = k ∨ (dictGet d k2).isSome = true) := by
  by_cases he : k = k2
  · subst he
    rw [dictGet_dictSet_self]
    simp
  · rw [dictGet_dictSet_ne _ _ _ _ he]
    simp [Ne.symm he]

theorem rowDataLoop_keys (nameMap cardMap : List (String × String)) :
    ∀ (fs : List RowField) (acc m : List (String × PyVal)),
      rowDataLoop nameMap cardMap fs acc = some m →
      ∀ k, (dictGet m k).isSome = true ↔
        ((dictGet acc k).isSome = true ∨
          ∃ f ∈ fs, f.value.isSome = true ∧
            dictGet nameMap f.columnId = some k) := by
  intro fs
  induction fs with
  | nil =>
    intro acc m h k
    rw [rowDataLoop] at h
    rw [← Option.some.inj h]
    simp
  | cons f fs ih =>
    intro acc m h k
    rw [rowDataLoop] at h
    cases hv : f.value with
    | none =>
      rw [hv] at h
      rw [ih acc m h k]
      constructor
      · rintro (ha | ⟨g, hg, hgs, hgk⟩)
        · exact Or.inl ha
        · exact Or.inr ⟨g, List.mem_cons_of_mem _ hg, hgs, hgk⟩
      · rintro (ha | ⟨g, hg, hgs, hgk⟩)
        · exact Or.inl ha
        · rcases List.mem_cons.mp hg with hg | hg
          · rw [hg, hv] at hgs
            exact Bool.noConfusion hgs
          · exact Or.inr ⟨g, hg, hgs, hgk⟩
    | some v0 =>
      rw [hv] at h
      simp only at h
      cases hc : dictGet cardMap f.columnId with
      | none => rw [hc] at h; exact Option.noConfusion h
      | some card =>
        rw [hc] at h
        simp only at h
        cases hv2 : (if card == "one" then rowDataCardOne (rowDataUnwrap v0)
            else some (rowDataUnwrap v0)) with
        | none =>
          rw [hv2] at h
          exact Option.noConfusion h
        | some v2 =>
          rw [hv2] at h
          cases hnm : dictGet nameMap f.columnId with
          | none => rw [hnm] at h; exact Option.noConfusion h
          | some nm =>
            rw [hnm] at h
            rw [ih _ m h k, isSome_dictGet_dictSet]
            constructor
            · rintro ((hk | ha) | ⟨g, hg, hgs, hgk⟩)
              · exact Or.inr ⟨f, List.mem_cons_self _ _, by simp [hv],
                  by rw [hnm, hk]⟩
              · exact Or.inl ha
              · exact Or.inr ⟨g, List.mem_cons_of_mem _ hg, hgs, hgk⟩
            · rintro (ha | ⟨g, hg, hgs, hgk⟩)
              · exact Or.inl (Or.inr ha)
              · rcases List.mem_cons.mp hg with hg | hg
                · subst hg
                  rw [hnm] at hgk
                  exact Or.inl (Or.inl (Option.some.inj hgk).symm)
                · exact Or.inr ⟨g, hg, hgs, hgk⟩

/-- C10 amended: the mapping built by get_row_data has a key exactly when
some field record carrying a value maps (through the parent database's
column-name mapper) to that key; fields without a value are skipped and
by themselves contribute no key, but they do not block another field of
the same column (or of a column with the same display name) from
supplying it. -/
theorem row_data_keys (response : RowResponse) (parent : DatabaseResponse)
    (use_column_keys : Bool) (m : List (String × PyVal))
    (h : get_row_data response parent use_column_keys = some m) :
    ∀ k, (dictGet m k).isSome = true ↔
      ∃ f ∈ response.fields, f.value.isSome = true ∧
        dictGet (columnNameMap parent.cols use_column_keys) f.columnId = some k := by
  unfold get_row_data at h
  by_cases h1 : (response.type != "row") = true
  · rw [if_pos h1] at h; exact Option.noConfusion h
  · rw [if_neg h1] at h
    by_cases h2 : (parent.type != "database") = true
    · rw [if_pos h2] at h; exact Option.noConfusion h
    · rw [if_neg h2] at h
      intro k
      rw [rowDataLoop_keys (columnNameMap parent.cols use_column_keys)
        (columnCardMap parent.cols) response.fields [] m h k]
      simp [dictGet_nil]

/-- C10 example column, parent and row: the row carries one valueless and
one valued field for the same column. -/
def exRowDataColumn : ColumnDescriptor :=
  { id := "c1", name := "Col", key := "ck", type := "text",
    cardinality := "one", configSelectOptions := none,
    referenceDatabaseRowId := none }

def exRowDataParent : DatabaseResponse :=
  { id := "db1", hid := "mydb", hidPref := "mydb", type := "database",
    cols := [exRowDataColumn] }

def exRowDataResponse : RowResponse :=
  { id := "r1", type := "row", parentId := "db1",
    fields := [{ columnId := "c1", value := none },
               { columnId := "c1", value := some (PyVal.vStr "x") }] }

/-- C10 counterexample: the first field of the row lacks a value, yet the
returned mapping does contain a key for that field's column, because the
second field of the same column carries one; the claim that the mapping
holds no key at all for a valueless field's column is therefore false as
stated. -/
theorem row_data_keys_counterexample :
    get_row_data exRowDataResponse exRowDataParent false =
      some [("Col", PyVal.vStr "x")] ∧
    (exRowDataResponse.fields.head?).map (fun f => f.value) = some none ∧
    dictGet (columnNameMap exRowDataParent.cols false) "c1" = some "Col" ∧
    (dictGet [("Col", PyVal.vStr "x")] "Col").isSome = true :=
  ⟨rfl, rfl, rfl, rfl⟩

/-- C10 witness: the key-membership theorem applied at the example row. -/
theorem row_data_keys_witness :
    (dictGet [("Col", PyVal.vStr "x")] "Col").isSome = true ↔
      ∃ f ∈ exRowDataResponse.fields, f.value.isSome = true ∧
        dictGet (columnNameMap exRowDataParent.cols false) f.columnId =
          some "Col" :=
  row_data_keys exRowDataResponse exRowDataParent false [("Col", PyVal.vStr "x")]
    rfl "Col"

/-! ### C7: merge_databases reference-column renaming -/

theorem buildColumnMapper_stable (cross : List (String × String)) :
    ∀ (cols : List (String × DFColumn)) (m0 m : List (String × String)),
      buildColumnMapper cross cols m0 = some m →
      ∀ k, k ∉ cols.map Prod.fst → dictGet m k = dictGet m0 k := by
  intro cols
  induction cols with
  | nil =>
    intro m0 m h k _
    rw [buildColumnMapper] at h
    rw [← Option.some.inj h]
  | cons p ps ih =>
    intro m0 m h k hk
    rw [List.map_cons] at hk
    have hk1 : k ≠ p.1 := fun he => hk (he ▸ List.mem_cons_self _ _)
    have hk2 : k ∉ ps.map Prod.fst := fun hm => hk (List.mem_cons_of_mem _ hm)
    rw [buildColumnMapper] at h
    cases hr : colRefId p.2.attrs with
    | none =>
      rw [hr] at h
      exact ih _ _ h k hk2
    | some r =>
      rw [hr] at h
      simp only at h
      cases hc : dictGet cross r with
      | none => rw [hc] at h; exact Option.noConfusion h
      | some pk =>
        rw [hc] at h
        rw [ih _ _ h k hk2, dictGet_dictSet_ne _ _ _ _ (Ne.symm hk1)]

theorem buildColumnMapper_spec (cross : List (String × String)) :
    ∀ (cols : List (String × DFColumn)) (m0 m : List (String × String)),
      buildColumnMapper cross cols m0 = some m →
      (cols.map Prod.fst).Nodup →
      ∀ p ∈ cols,
        (colRefId p.2.attrs = none → dictGet m p.1 = dictGet m0 p.1) ∧
        (∀ r, colRefId p.2.attrs = some r →
          ∃ pk, dictGet cross r = some pk ∧ dictGet m p.1 = some pk) := by
  intro cols
  induction cols with
  | nil => intro m0 m h hnd p hp; cases hp
  | cons q ps ih =>
    intro m0 m h hnd p hp
    rw [List.map_cons] at hnd
    have hq1 : q.1 ∉ ps.map Prod.fst := (List.nodup_cons.mp hnd).1
    have hnd2 := (List.nodup_cons.mp hnd).2
    rw [buildColumnMapper] at h
    rcases List.mem_cons.mp hp with hp | hp
    · subst hp
      constructor
      · intro hr
        rw [hr] at h
        rw [buildColumnMapper_stable cross ps _ m h p.1 hq1]
      · intro r hr
        rw [hr] at h
        simp only at h
        cases hc : dictGet cross r with
        | none => rw [hc] at h; exact Option.noConfusion h
        | some pk =>
          rw [hc] at h
          refine ⟨pk, rfl, ?_⟩
          rw [buildColumnMapper_stable cross ps _ m h p.1 hq1,
            dictGet_dictSet_self]
    · have hpq : p.1 ≠ q.1 := by
        intro he
        exact hq1 (he ▸ List.mem_map.mpr ⟨p, hp, rfl⟩)
      cases hr : colRefId q.2.attrs with
      | none =>
        rw [hr] at h
        exact ih _ _ h hnd2 p hp
      | some r =>
        rw [hr] at h
        simp only at h
        cases hc : dictGet cross r with
        | none => rw [hc] at h; exact Option.noConfusion h
        | some pk =>
          rw [hc] at h
          have hih := ih _ _ h hnd2 p hp
          constructor
          · intro hr2
            rw [hih.1 hr2, dictGet_dictSet_ne _ _ _ _ (Ne.symm hpq)]
          · exact hih.2

/-- The two-entry cross-reference mapper of merge_databases resolves
exactly the two database ids. -/
theorem cross_mapper_get (id1 pk1 id2 pk2 : String) (hne : id1 ≠ id2) (r : String) :
    dictGet (dictSet (dictSet [] id1 pk1) id2 pk2) r =
      if r = id1 then some pk1 else if r = id2 then some pk2 else none := by
  rw [dictSet_nil, dictSet_cons, if_neg (by simpa using hne)]
  rw [dictGet_cons]
  by_cases h1 : r = id1
  · simp [h1]
  · rw [if_neg (by simpa using (Ne.symm h1 : id1 ≠ r)), if_neg h1, dictSet_nil,
      dictGet_cons]
    by_cases h2 : r = id2
    · simp [h2]
    · simp [Ne.symm h2, h2, dictGet_nil]

/-- C7 amended: in merge_databases, a column is renamed exactly when its
attached descriptor carries a referenceDatabaseRowId, and it is renamed
to the primary-key name of whichever of the two merged tables carries
that database id - including the column's own table.  A
referenceDatabaseRowId matching neither table makes the call fail, so on
success every reference points at one of the two tables; the outer merge
is invoked on the common column names, which contain the referenced
table's primary key when a reference to it exists. -/
theorem merge_rename_alignment (df1 df2 : DataFrame) (res : MergeResult)
    (hres : merge_databases [df1, df2] = some res)
    (hid : df1.attrs.id ≠ df2.attrs.id)
    (hnd1 : (df1.cols.map Prod.fst).Nodup)
    (hnd2 : (df2.cols.map Prod.fst).Nodup) :
    (res.left.cols.map Prod.fst = df1.cols.map (fun p =>
      match colRefId p.2.attrs with
      | none => p.1
      | some r => if r = df1.attrs.id then df1.attrs.primary_key
                  else df2.attrs.primary_key)) ∧
    (res.right.cols.map Prod.fst = df2.cols.map (fun p =>
      match colRefId p.2.attrs with
      | none => p.1
      | some r => if r = df1.attrs.id then df1.attrs.primary_key
                  else df2.attrs.primary_key)) ∧
    (∀ p ∈ df1.cols ++ df2.cols, ∀ r, colRefId p.2.attrs = some r →
      r = df1.attrs.id ∨ r = df2.attrs.id) ∧
    ((∃ p ∈ df1.cols, colRefId p.2.attrs = some df2.attrs.id) →
      df2.attrs.primary_key ∈ df2.cols.map Prod.fst →
      (∀ p ∈ df2.cols, p.1 = df2.attrs.primary_key → colRefId p.2.attrs = none) →
      df2.attrs.primary_key ∈ res.joinOn) := by
  unfold merge_databases at hres
  simp only at hres
  cases hm1 : buildColumnMapper
      (dictSet (dictSet [] df1.attrs.id df1.attrs.primary_key) df2.attrs.id
        df2.attrs.primary_key) df1.cols [] with
  | none => rw [hm1] at hres; exact Option.noConfusion hres
  | some m1 =>
    cases hm2 : buildColumnMapper
        (dictSet (dictSet [] df1.attrs.id df1.attrs.primary_key) df2.attrs.id
          df2.attrs.primary_key) df2.cols [] with
    | none => rw [hm1, hm2] at hres; exact Option.noConfusion hres
    | some m2 =>
      rw [hm1, hm2] at hres
      have hr := Option.some.inj hres
      subst hr
      have hspec1 := buildColumnMapper_spec _ df1.cols [] m1 hm1 hnd1
      have hspec2 := buildColumnMapper_spec _ df2.cols [] m2 hm2 hnd2
      have hname : ∀ (dfc : List (String × DFColumn)) (m : List (String × String)),
          (∀ p ∈ dfc,
            (colRefId p.2.attrs = none → dictGet m p.1 = none) ∧
            (∀ r, colRefId p.2.attrs = some r →
              ∃ pk, dictGet (dictSet (dictSet [] df1.attrs.id df1.attrs.primary_key)
                df2.attrs.id df2.attrs.primary_key) r = some pk ∧
                dictGet m p.1 = some pk)) →
          (renameCols m dfc).map Prod.fst = dfc.map (fun p =>
            match colRefId p.2.attrs with
            | none => p.1
            | some r => if r = df1.attrs.id then df1.attrs.primary_key
                        else df2.attrs.primary_key) := by
        intro dfc m hspec
        unfold renameCols
        rw [List.map_map]
        apply List.map_congr_left
        intro p hp
        cases hr : colRefId p.2.attrs with
        | none =>
          show (dictGet m p.1).getD p.1 = p.1
          rw [(hspec p hp).1 hr]
          rfl
        | some r =>
          obtain ⟨pk, hpk, hget⟩ := (hspec p hp).2 r hr
          show (dictGet m p.1).getD p.1 =
            if r = df1.attrs.id then df1.attrs.primary_key else df2.attrs.primary_key
          rw [hget]
          rw [cross_mapper_get _ _ _ _ hid r] at hpk
          by_cases h1 : r = df1.attrs.id
          · rw [if_pos h1] at hpk ⊢
            exact (Option.some.inj hpk).symm
          · rw [if_neg h1] at hpk ⊢
            by_cases h2 : r = df2.attrs.id
            · rw [if_pos h2] at hpk
              exact (Option.some.inj hpk).symm
            · rw [if_neg h2] at hpk
              exact Option.noConfusion hpk
      have hn1 : (renameCols m1 df1.cols).map Prod.fst = df1.cols.map (fun p =>
          match colRefId p.2.attrs with
          | none => p.1
          | some r => if r = df1.attrs.id then df1.attrs.primary_key
                      else df2.attrs.primary_key) := by
        apply hname df1.cols m1
        intro p hp
        exact ⟨fun hr => by rw [(hspec1 p hp).1 hr]; rfl, (hspec1 p hp).2⟩
      have hn2 : (renameCols m2 df2.cols).map Prod.fst = df2.cols.map (fun p =>
          match colRefId p.2.attrs with
          | none => p.1
          | some r => if r = df1.attrs.id then df1.attrs.primary_key
                      else df2.attrs.primary_key) := by
        apply hname df2.cols m2
        intro p hp
        exact ⟨fun hr => by rw [(hspec2 p hp).1 hr]; rfl, (hspec2 p hp).2⟩
      refine ⟨hn1, hn2, ?_, ?_⟩
      · intro p hp r hr
        rcases List.mem_append.mp hp with hp | hp
        · obtain ⟨pk, hpk, _⟩ := (hspec1 p hp).2 r hr
          rw [cross_mapper_get _ _ _ _ hid r] at hpk
          by_cases h1 : r = df1.attrs.id
          · exact Or.inl h1
          · by_cases h2 : r = df2.attrs.id
            · exact Or.inr h2
            · rw [if_neg h1, if_neg h2] at hpk
              exact Option.noConfusion hpk
        · obtain ⟨pk, hpk, _⟩ := (hspec2 p hp).2 r hr
          rw [cross_mapper_get _ _ _ _ hid r] at hpk
          by_cases h1 : r = df1.attrs.id
          · exact Or.inl h1
          · by_cases h2 : r = df2.attrs.id
            · exact Or.inr h2
            · rw [if_neg h1, if_neg h2] at hpk
              exact Option.noConfusion hpk
      · rintro ⟨p, hp, hpref⟩ hpk2 hunref
        have hleft : df2.attrs.primary_key ∈ (renameCols m1 df1.cols).map Prod.fst := by
          rw [hn1]
          refine List.mem_map.mpr ⟨p, hp, ?_⟩
          rw [hpref]
          simp only
          rw [if_neg (Ne.symm hid)]
        have hright : df2.attrs.primary_key ∈ (renameCols m2 df2.cols).map Prod.fst := by
          rw [hn2]
          obtain ⟨q, hq, hqe⟩ := List.mem_map.mp hpk2
          refine List.mem_map.mpr ⟨q, hq, ?_⟩
          rw [hunref q hq hqe]
          exact hqe
        show df2.attrs.primary_key ∈
          (dictKeys (renameCols m1 df1.cols)).filter
            (fun n => (dictKeys (renameCols m2 df2.cols)).contains n)
        rw [List.mem_filter]
        have hleft2 : df2.attrs.primary_key ∈ dictKeys (renameCols m1 df1.cols) :=
          hleft
        have hright2 : df2.attrs.primary_key ∈ dictKeys (renameCols m2 df2.cols) :=
          hright
        exact ⟨hleft2, List.elem_iff.mpr hright2⟩

/-- Example plain DataFrame column. -/
def exPlainDFCol : DFColumn := { values := [], categorical := none, attrs := ColAttrs.empty }

/-- Example reference column descriptor pointing at database A. -/
def exRefColDesc : ColumnDescriptor :=
  { id := "rc", name := "refcol", key := "rck", type := "reference",
    cardinality := "one", configSelectOptions := none,
    referenceDatabaseRowId := some "A" }

/-- Example reference DataFrame column carrying that descriptor. -/
def exRefDFCol : DFColumn :=
  { values := [], categorical := none, attrs := ColAttrs.descriptor exRefColDesc }

/-- Example dataframe for database A: its own primary key column plus a
reference column whose referenceDatabaseRowId is A itself. -/
def exDfA : DataFrame :=
  { cols := [("A-id", exPlainDFCol), ("refcol", exRefDFCol)],
    attrs := { file_ids := [], reference_ids := [], id := "A", primary_key := "A-id" } }

/-- Example dataframe for database B. -/
def exDfB : DataFrame :=
  { cols := [("B-id", exPlainDFCol)],
    attrs := { file_ids := [], reference_ids := [], id := "B", primary_key := "B-id" } }

/-- C7 counterexample: the refcol column of table A references table A
itself (not the other table), yet merge_databases renames it to table A's
own primary-key name instead of leaving it unchanged. -/
theorem merge_rename_counterexample :
    ∃ res, merge_databases [exDfA, exDfB] = some res ∧
      exRefColDesc.referenceDatabaseRowId = some exDfA.attrs.id ∧
      exDfA.cols.map Prod.fst = ["A-id", "refcol"] ∧
      res.left.cols.map Prod.fst = ["A-id", "A-id"] ∧
      ("refcol" : String) ≠ "A-id" :=
  ⟨_, rfl, rfl, rfl, rfl, by decide⟩

/-- C7 witness: the rename-alignment theorem applied to the example pair
of dataframes. -/
theorem merge_rename_alignment_witness :
    ∃ res, merge_databases [exDfA, exDfB] = some res ∧
      res.left.cols.map Prod.fst = exDfA.cols.map (fun p =>
        match colRefId p.2.attrs with
        | none => p.1
        | some r => if r = exDfA.attrs.id then exDfA.attrs.primary_key
                    else exDfB.attrs.primary_key) := by
  refine ⟨_, rfl, ?_⟩
  exact (merge_rename_alignment exDfA exDfB _ rfl (by decide) (by decide)
    (by decide)).1

/-! ### Structure of the column mappers and the cleanup pipeline -/

theorem dictKeys_append (d e : List (String × α)) :
    dictKeys (d ++ e) = dictKeys d ++ dictKeys e := by
  simp [dictKeys]

theorem foldl_dictSet_fresh (key : ColumnDescriptor → String)
    (val : ColumnDescriptor → α) :
    ∀ (cols : List ColumnDescriptor) (d : List (String × α)),
      (∀ c ∈ cols, key c ∉ dictKeys d) → (cols.map key).Nodup →
      cols.foldl (fun d c => dictSet d (key c) (val c)) d =
        d ++ cols.map (fun c => (key c, val c)) := by
  intro cols
  induction cols with
  | nil => intro d _ _; simp
  | cons c cs ih =>
    intro d hfresh hnd
    rw [List.map_cons] at hnd
    have hfresh2 : ∀ c2 ∈ cs, key c2 ∉ dictKeys (d ++ [(key c, val c)]) := by
      intro c2 hc2
      rw [dictKeys_append]
      intro hmem
      rcases List.mem_append.mp hmem with hm | hm
      · exact hfresh c2 (List.mem_cons_of_mem _ hc2) hm
      · have he : key c2 = key c := by simpa [dictKeys] using hm
        exact (List.nodup_cons.mp hnd).1 (he ▸ List.mem_map.mpr ⟨c2, hc2, rfl⟩)
    rw [List.foldl_cons,
      dictSet_of_not_mem_keys d (key c) (val c) (hfresh c (List.mem_cons_self _ _)),
      ih _ hfresh2 (List.nodup_cons.mp hnd).2]
    simp

theorem columnMapper_eq (columns : List ColumnDescriptor)
    (hnd : (columns.map (fun c => c.id)).Nodup) :
    columnMapper columns = columns.map (fun c => (c.id, c.name)) := by
  unfold columnMapper
  rw [foldl_dictSet_fresh (fun c => c.id) (fun c => c.name) columns [] (by simp [dictKeys]) hnd]
  rfl

theorem dictKeys_columnMapper (columns : List ColumnDescriptor)
    (hnd : (columns.map (fun c => c.id)).Nodup) :
    dictKeys (columnMapper columns) = columns.map (fun c => c.id) := by
  rw [columnMapper_eq columns hnd]
  simp [dictKeys]

theorem dictGet_columnMapper_mem (columns : List ColumnDescriptor)
    (hnd : (columns.map (fun c => c.id)).Nodup) (c : ColumnDescriptor)
    (hc : c ∈ columns) : dictGet (columnMapper columns) c.id = some c.name := by
  rw [columnMapper_eq columns hnd]
  exact dictGet_of_mem_of_nodup _ (c.id, c.name)
    (List.mem_map.mpr ⟨c, hc, rfl⟩)
    (by rw [show dictKeys (columns.map (fun c => (c.id, c.name))) =
        columns.map (fun c => c.id) by simp [dictKeys]]; exact hnd)

theorem dictGet_columnMapper_none (columns : List ColumnDescriptor)
    (k : String) (hk : k ∉ columns.map (fun c => c.id)) :
    dictGet (columnMapper columns) k = none := by
  apply dictGet_eq_none_of_not_mem_keys
  intro hm
  unfold columnMapper at hm
  rcases mem_keys_foldl_dictSet (fun c => c.name) columns [] k hm with h | h
  · cases h
  · exact hk h

theorem dictKeys_initData_eq (columns : List ColumnDescriptor) (row_id : String)
    (hnd : (columns.map (fun c => c.id)).Nodup)
    (hvs : "Validation Status" ∉ columns.map (fun c => c.id))
    (hrid : row_id ∉ columns.map (fun c => c.id))
    (hvr : row_id ≠ "Validation Status") :
    dictKeys (initData columns row_id) =
      "Validation Status" :: row_id :: columns.map (fun c => c.id) := by
  unfold initData
  have hbase : dictSet (dictSet ([] : Data) "Validation Status" []) row_id [] =
      [("Validation Status", []), (row_id, [])] := by
    rw [dictSet_nil, dictSet_cons, if_neg (by simpa using Ne.symm hvr)]
    rfl
  rw [hbase, foldl_dictSet_fresh (fun c => c.id) (fun _ => []) columns _ ?_ hnd]
  · simp [dictKeys]
  · intro c hc
    intro hm
    simp only [dictKeys, List.map_cons, List.map_nil, List.mem_cons,
      List.mem_singleton, List.not_mem_nil, or_false] at hm
    rcases hm with hm | hm
    · exact hvs (hm ▸ List.mem_map.mpr ⟨c, hc, rfl⟩)
    · exact hrid (hm ▸ List.mem_map.mpr ⟨c, hc, rfl⟩)

theorem pdCategorical_info (values : List PyVal) (categories : List String)
    (vs : List PyVal) (info : CategoricalInfo)
    (h : pdCategorical values categories = some (vs, info)) :
    info = { categories := categories, ordered := false } := by
  unfold pdCategorical at h
  cases hv : pdCategoricalValues categories values with
  | none => rw [hv] at h; exact Option.noConfusion h
  | some ws =>
    rw [hv] at h
    exact (congrArg Prod.snd (Option.some.inj h)).symm

theorem pdCategorical_of_in_domain (categories : List String) :
    ∀ (values : List PyVal),
      (∀ v ∈ values, v = PyVal.vNone ∨
        ∃ s, v = PyVal.vStr s ∧ s ∈ categories) →
      pdCategorical values categories =
        some (values, { categories := categories, ordered := false }) := by
  have hvals : ∀ (values : List PyVal),
      (∀ v ∈ values, v = PyVal.vNone ∨
        ∃ s, v = PyVal.vStr s ∧ s ∈ categories) →
      pdCategoricalValues categories values = some values := by
    intro values
    induction values with
    | nil => intro _; rfl
    | cons v vs ih =>
      intro hdom
      rw [pdCategoricalValues]
      have hv : pdCategoricalValue categories v = some v := by
        rcases hdom v (List.mem_cons_self _ _) with hv | ⟨str, hv, hs⟩
        · rw [hv]; rfl
        · have hs2 : categories.contains str = true := List.elem_iff.mpr hs
          rw [hv]
          show some (if categories.contains str = true then PyVal.vStr str
            else PyVal.vNone) = some (PyVal.vStr str)
          rw [if_pos hs2]
      rw [hv, ih (fun w hw => hdom w (List.mem_cons_of_mem _ hw))]
  intro values hdom
  unfold pdCategorical
  rw [hvals values hdom]

theorem applyCategoricals_keys :
    ∀ (cs : List ColumnDescriptor) (cols cols2 : List (String × DFColumn)),
      applyCategoricals cs cols = some cols2 → dictKeys cols2 = dictKeys cols := by
  intro cs
  induction cs with
  | nil =>
    intro cols cols2 h
    rw [applyCategoricals] at h
    rw [← Option.some.inj h]
  | cons c cs ih =>
    intro cols cols2 h
    rw [applyCategoricals] at h
    by_cases hsel : (c.type == "select" && c.cardinality == "one") = true
    · rw [if_pos hsel] at h
      cases hopts : c.configSelectOptions with
      | none => rw [hopts] at h; exact Option.noConfusion h
      | some opts =>
        cases hcol : dictGet cols c.id with
        | none => rw [hopts, hcol] at h; exact Option.noConfusion h
        | some col =>
          rw [hopts, hcol] at h
          simp only at h
          cases hcat : pdCategorical col.values opts with
          | none => rw [hcat] at h; exact Option.noConfusion h
          | some out =>
            obtain ⟨vs, info⟩ := out
            rw [hcat] at h
            rw [ih _ _ h, dictKeys_dictSet,
              if_pos (mem_keys_of_dictGet_eq_some _ _ _ hcol)]
    · rw [if_neg hsel] at h
      exact ih _ _ h

theorem applyCategoricals_untouched :
    ∀ (cs : List ColumnDescriptor) (cols cols2 : List (String × DFColumn)),
      applyCategoricals cs cols = some cols2 →
      ∀ k, (∀ c ∈ cs, c.id = k →
          ¬(c.type = "select" ∧ c.cardinality = "one")) →
        dictGet cols2 k = dictGet cols k := by
  intro cs
  induction cs with
  | nil =>
    intro cols cols2 h k _
    rw [applyCategoricals] at h
    rw [← Option.some.inj h]
  | cons c cs ih =>
    intro cols cols2 h k hk
    rw [applyCategoricals] at h
    by_cases hsel : (c.type == "select" && c.cardinality == "one") = true
    · rw [if_pos hsel] at h
      cases hopts : c.configSelectOptions with
      | none => rw [hopts] at h; exact Option.noConfusion h
      | some opts =>
        cases hcol : dictGet cols c.id with
        | none => rw [hopts, hcol] at h; exact Option.noConfusion h
        | some col =>
          rw [hopts, hcol] at h
          simp only at h
          cases hcat : pdCategorical col.values opts with
          | none => rw [hcat] at h; exact Option.noConfusion h
          | some out =>
            obtain ⟨vs, info⟩ := out
            rw [hcat] at h
            have hck : c.id ≠ k := by
              intro he
              exact hk c (List.mem_cons_self _ _) he
                ⟨by simpa using (Bool.and_elim_left hsel),
                 by simpa using (Bool.and_elim_right hsel)⟩
            rw [ih _ _ h k (fun c2 hc2 => hk c2 (List.mem_cons_of_mem _ hc2)),
              dictGet_dictSet_ne _ _ _ _ hck]
    · rw [if_neg hsel] at h
      exact ih _ _ h k (fun c2 hc2 => hk c2 (List.mem_cons_of_mem _ hc2))

theorem applyCategoricals_select :
    ∀ (cs : List ColumnDescriptor) (cols cols2 : List (String × DFColumn)),
      applyCategoricals cs cols = some cols2 →
      (cs.map (fun c => c.id)).Nodup →
      ∀ c ∈ cs, c.type = "select" → c.cardinality = "one" →
        ∃ opts col vs info, c.configSelectOptions = some opts ∧
          dictGet cols c.id = some col ∧
          pdCategorical col.values opts = some (vs, info) ∧
          dictGet cols2 c.id =
            some { values := vs, categorical := some info, attrs := ColAttrs.empty } := by
  intro cs
  induction cs with
  | nil => intro cols cols2 h _ c hc; cases hc
  | cons c0 cs ih =>
    intro cols cols2 h hnd c hc hty hcard
    rw [List.map_cons] at hnd
    rw [applyCategoricals] at h
    rcases List.mem_cons.mp hc with hc | hc
    · subst hc
      rw [if_pos (by simp [hty, hcard])] at h
      cases hopts : c.configSelectOptions with
      | none => rw [hopts] at h; exact Option.noConfusion h
      | some opts =>
        cases hcol : dictGet cols c.id with
        | none => rw [hopts, hcol] at h; exact Option.noConfusion h
        | some col =>
          rw [hopts, hcol] at h
          simp only at h
          cases hcat : pdCategorical col.values opts with
          | none => rw [hcat] at h; exact Option.noConfusion h
          | some out =>
            obtain ⟨vs, info⟩ := out
            rw [hcat] at h
            refine ⟨opts, col, vs, info, rfl, rfl, hcat, ?_⟩
            rw [applyCategoricals_untouched cs _ cols2 h c.id ?_,
              dictGet_dictSet_self]
            intro c2 hc2 he _
            exact (List.nodup_cons.mp hnd).1 (he ▸ List.mem_map.mpr ⟨c2, hc2, rfl⟩)
    · have hne : c0.id ≠ c.id := by
        intro he
        exact (List.nodup_cons.mp hnd).1 (he ▸ List.mem_map.mpr ⟨c, hc, rfl⟩)
      by_cases hsel : (c0.type == "select" && c0.cardinality == "one") = true
      · rw [if_pos hsel] at h
        cases hopts : c0.configSelectOptions with
        | none => rw [hopts] at h; exact Option.noConfusion h
        | some opts =>
          cases hcol : dictGet cols c0.id with
          | none => rw [hopts, hcol] at h; exact Option.noConfusion h
          | some col =>
            rw [hopts, hcol] at h
            simp only at h
            cases hcat : pdCategorical col.values opts with
            | none => rw [hcat] at h; exact Option.noConfusion h
            | some out =>
              obtain ⟨vs, info⟩ := out
              rw [hcat] at h
              obtain ⟨opts2, col2, vs2, info2, h1, h2, h3, h4⟩ :=
                ih _ _ h (List.nodup_cons.mp hnd).2 c hc hty hcard
              rw [dictGet_dictSet_ne _ _ _ _ hne] at h2
              exact ⟨opts2, col2, vs2, info2, h1, h2, h3, h4⟩
      · rw [if_neg hsel] at h
        exact ih _ _ h (List.nodup_cons.mp hnd).2 c hc hty hcard

theorem dictGet_filter_key (Q : String → Bool) (d : List (String × α)) (k : String) :
    dictGet (d.filter (fun p => Q p.1)) k =
      if Q k then dictGet d k else none := by
  by_cases hq : Q k = true
  · rw [if_pos hq]
    induction d with
    | nil => rfl
    | cons p ps ih =>
      rw [List.filter_cons, dictGet_cons]
      by_cases hp : Q p.1 = true
      · rw [if_pos hp, dictGet_cons]
        by_cases he : p.1 = k
        · simp [he]
        · rw [if_neg (by simpa using he), if_neg (by simpa using he)]
          exact ih
      · rw [if_neg hp]
        have he : p.1 ≠ k := fun h2 => hp (h2 ▸ hq)
        rw [if_neg (by simpa using he)]
        exact ih
  · rw [if_neg hq]
    induction d with
    | nil => rfl
    | cons p ps ih =>
      rw [List.filter_cons]
      by_cases hp : Q p.1 = true
      · rw [if_pos hp, dictGet_cons]
        have he : p.1 ≠ k := fun h2 => hq (h2 ▸ hp)
        rw [if_neg (by simpa using he)]
        exact ih
      · rw [if_neg hp]
        exact ih

theorem dictGet_dictRemove_ne (d : List (String × α)) (k k2 : String)
    (h : k2 ≠ k) : dictGet (dictRemove d k) k2 = dictGet d k2 := by
  unfold dictRemove
  have heq : (fun p : String × α => p.1 != k) = (fun p : String × α => !(p.1 == k)) := by
    funext p
    rfl
  rw [heq, dictGet_filter_key (fun a => !(a == k)) d k2, if_pos (by simpa using h)]

theorem mem_keys_dictSet_sub (d : List (String × α)) (k k2 : String) (v : α)
    (h : k2 ∈ dictKeys (dictSet d k v)) : k2 ∈ dictKeys d ∨ k2 = k := by
  rw [dictKeys_dictSet] at h
  by_cases hk : k ∈ dictKeys d
  · rw [if_pos hk] at h
    exact Or.inl h
  · rw [if_neg hk] at h
    rcases List.mem_append.mp h with h | h
    · exact Or.inl h
    · exact Or.inr (List.mem_singleton.mp h)

theorem mem_keys_dictRemove_sub (d : List (String × α)) (k k2 : String)
    (h : k2 ∈ dictKeys (dictRemove d k)) : k2 ∈ dictKeys d := by
  unfold dictRemove at h
  unfold dictKeys at h ⊢
  obtain ⟨p, hp, he⟩ := List.mem_map.mp h
  exact List.mem_map.mpr ⟨p, List.mem_of_mem_filter hp, he⟩

theorem dictGet_wipeAttrs (cols : List (String × DFColumn)) (k : String) :
    dictGet (wipeAttrs cols) k =
      (dictGet cols k).map (fun col => { col with attrs := ColAttrs.empty }) := by
  induction cols with
  | nil => rfl
  | cons p ps ih =>
    unfold wipeAttrs at ih ⊢
    rw [List.map_cons, dictGet_cons, dictGet_cons]
    by_cases he : p.1 = k
    · simp [he]
    · rw [if_neg (by simpa using he), if_neg (by simpa using he)]
      exact ih

theorem dictGet_dictUpdateFirst_self (l : List (String × α)) (k : String)
    (f : α → α) :
    dictGet (dictUpdateFirst l k f) k = (dictGet l k).map f := by
  induction l with
  | nil => rfl
  | cons p ps ih =>
    rw [dictUpdateFirst]
    by_cases hp : p.1 = k
    · rw [if_pos (by simpa using hp), dictGet_cons, dictGet_cons]
      simp [hp]
    · rw [if_neg (by simpa using hp), dictGet_cons, dictGet_cons,
        if_neg (by simpa using hp), if_neg (by simpa using hp)]
      exact ih

theorem dictGet_dictUpdateFirst_ne (l : List (String × α)) (k : String)
    (f : α → α) (k2 : String) (h : k2 ≠ k) :
    dictGet (dictUpdateFirst l k f) k2 = dictGet l k2 := by
  induction l with
  | nil => rfl
  | cons p ps ih =>
    rw [dictUpdateFirst]
    by_cases hp : p.1 = k
    · rw [if_pos (by simpa using hp), dictGet_cons, dictGet_cons]
      have hne : p.1 ≠ k2 := by rw [hp]; exact Ne.symm h
      rw [if_neg (by simpa using hne), if_neg (by simpa using hne)]
    · rw [if_neg (by simpa using hp), dictGet_cons, dictGet_cons]
      by_cases he2 : p.1 = k2
      · simp [he2]
      · rw [if_neg (by simpa using he2), if_neg (by simpa using he2)]
        exact ih

theorem attachAttrs_get_proj :
    ∀ (cs : List ColumnDescriptor) (cols cols2 : List (String × DFColumn)),
      attachAttrs cs cols = some cols2 →
      ∀ k, (dictGet cols2 k).map (fun col => (col.values, col.categorical)) =
        (dictGet cols k).map (fun col => (col.values, col.categorical)) := by
  intro cs
  induction cs with
  | nil =>
    intro cols cols2 h k
    rw [attachAttrs] at h
    rw [← Option.some.inj h]
  | cons c cs ih =>
    intro cols cols2 h k
    rw [attachAttrs] at h
    by_cases hc : (dictGet cols c.name).isSome
    · rw [if_pos hc] at h
      rw [ih _ _ h k]
      by_cases he : k = c.name
      · subst he
        rw [dictGet_dictUpdateFirst_self]
        cases hg : dictGet cols c.name <;> simp [hg]
      · rw [dictGet_dictUpdateFirst_ne _ _ _ _ he]
    · rw [if_neg hc] at h
      exact Option.noConfusion h

theorem dictGet_renameCols (mapper : List (String × String))
    (cols : List (String × DFColumn)) (k : String)
    (hinj : ∀ a ∈ dictKeys cols,
      (dictGet mapper a).getD a = (dictGet mapper k).getD k → a = k) :
    dictGet (renameCols mapper cols) ((dictGet mapper k).getD k) =
      dictGet cols k := by
  induction cols with
  | nil => rfl
  | cons p ps ih =>
    unfold renameCols at ih ⊢
    rw [List.map_cons, dictGet_cons, dictGet_cons]
    by_cases he : p.1 = k
    · subst he
      simp
    · have hne : (dictGet mapper p.1).getD p.1 ≠ (dictGet mapper k).getD k := by
        intro hr
        exact he (hinj p.1 (by simp [dictKeys]) hr)
      rw [if_neg (by simpa using hne), if_neg (by simpa using he)]
      exact ih (fun a ha hr => hinj a (by simp [dictKeys] at ha ⊢; exact Or.inr ha) hr)

theorem dictKeys_renameCols (mapper : List (String × String))
    (cols : List (String × DFColumn)) :
    dictKeys (renameCols mapper cols) =
      (dictKeys cols).map (fun a => (dictGet mapper a).getD a) := by
  unfold renameCols dictKeys
  rw [List.map_map, List.map_map]
  rfl

theorem pdDataFrame_get (data : Data) (cols0 : List (String × DFColumn))
    (h : pdDataFrame data = some cols0) :
    (∀ k, dictGet cols0 k = (dictGet data k).map
      (fun vs => { values := vs, categorical := none, attrs := ColAttrs.empty })) ∧
    dictKeys cols0 = dictKeys data := by
  unfold pdDataFrame at h
  have hmap : ∀ (d : Data) (k : String),
      dictGet (d.map (fun q => (q.1, ({ values := q.2, categorical := none, attrs := ColAttrs.empty } : DFColumn)))) k =
      (dictGet d k).map (fun vs => { values := vs, categorical := none, attrs := ColAttrs.empty }) := by
    intro d
    induction d with
    | nil => intro k; rfl
    | cons p ps ih =>
      intro k
      rw [List.map_cons, dictGet_cons, dictGet_cons]
      by_cases he : p.1 = k
      · simp [he]
      · rw [if_neg (by simpa using he), if_neg (by simpa using he)]
        exact ih k
  have hkeys : ∀ (d : Data),
      dictKeys (d.map (fun q => (q.1, ({ values := q.2, categorical := none, attrs := ColAttrs.empty } : DFColumn)))) = dictKeys d := by
    intro d
    unfold dictKeys
    rw [List.map_map]
    rfl
  cases data with
  | nil =>
    constructor
    · intro k
      rw [← Option.some.inj h]
      rfl
    · rw [← Option.some.inj h]
      rfl
  | cons q qs =>
    simp only at h
    by_cases hall : qs.all (fun r => r.2.length == q.2.length)
    · rw [if_pos hall] at h
      rw [← Option.some.inj h]
      exact ⟨hmap (q :: qs), hkeys (q :: qs)⟩
    · rw [if_neg hall] at h
      exact Option.noConfusion h

theorem get_dataframe_df_parts (fileName idToHid : String → String)
    (response : DatabaseResponse) (rows : List RowRecord) (ufn : Bool)
    (rfmt : String) (df : DataFrame)
    (hres : get_dataframe fileName idToHid response rows ufn rfmt "dataframe" =
      some (DatabaseReturn.dataframe df)) :
    ∃ data fids rids cols0,
      assembleData fileName idToHid response.cols (response.hidPref ++ "-id") rows
        ufn rfmt = some (data, fids, rids) ∧
      pdDataFrame data = some cols0 ∧
      type_and_cleanup_dataframe
        { cols := cols0,
          attrs := { file_ids := fids.eraseDups, reference_ids := rids.eraseDups,
                     id := response.id,
                     primary_key := response.hidPref ++ "-id" } } response.cols =
        some df := by
  unfold get_dataframe at hres
  by_cases hty : (response.type != "database") = true
  · rw [if_pos hty] at hres
    exact Option.noConfusion hres
  · rw [if_neg hty] at hres
    simp only at hres
    cases hasm : assembleData fileName idToHid response.cols
        (response.hidPref ++ "-id") rows ufn rfmt with
    | none => rw [hasm] at hres; exact Option.noConfusion hres
    | some out =>
      obtain ⟨data, fids, rids⟩ := out
      rw [hasm] at hres
      simp only [if_pos rfl] at hres
      cases hpd : pdDataFrame data with
      | none => rw [hpd] at hres; exact Option.noConfusion hres
      | some cols0 =>
        rw [hpd] at hres
        simp only at hres
        obtain ⟨df2, htc, hr⟩ := Option.map_eq_some'.mp hres
        have hdf : df2 = df := by
          cases hr2 : DatabaseReturn.dataframe df2 with
          | dataframe d => exact DatabaseReturn.dataframe.inj (hr2 ▸ hr)
          | dict d => exact DatabaseReturn.noConfusion (hr2 ▸ hr)
        subst hdf
        exact ⟨data, fids, rids, cols0, rfl, hpd, htc⟩

theorem type_and_cleanup_parts (df0 : DataFrame) (columns : List ColumnDescriptor)
    (df : DataFrame) (h : type_and_cleanup_dataframe df0 columns = some df) :
    ∃ cols1 cols3,
      applyCategoricals columns df0.cols = some cols1 ∧
      attachAttrs columns (wipeAttrs (renameCols (columnMapper columns) cols1)) =
        some cols3 ∧
      df = { cols := dictUpdateFirst cols3 "Validation Status"
               (fun col => { col with attrs := ColAttrs.validationStatus }),
             attrs := df0.attrs } := by
  unfold type_and_cleanup_dataframe at h
  cases hcat : applyCategoricals columns df0.cols with
  | none => rw [hcat] at h; exact Option.noConfusion h
  | some cols1 =>
    rw [hcat] at h
    simp only at h
    cases hatt : attachAttrs columns (wipeAttrs (renameCols (columnMapper columns)
        cols1)) with
    | none => rw [hatt] at h; exact Option.noConfusion h
    | some cols3 =>
      rw [hatt] at h
      simp only at h
      by_cases hvs : (dictGet cols3 "Validation Status").isSome
      · rw [if_pos hvs] at h
        exact ⟨cols1, cols3, rfl, hatt, (Option.some.inj h).symm⟩
      · rw [if_neg hvs] at h
        exact Option.noConfusion h

/-- C6 amended: in the dataframe produced by get_dataframe, every
select-typed column of cardinality one carries a categorical dtype whose
levels are exactly its configSelect options in declared order, with the
ordered flag false (the pandas default), i.e. an unordered categorical. -/
theorem select_categorical_amended (fileName idToHid : String → String)
    (response : DatabaseResponse) (rows : List RowRecord) (ufn : Bool)
    (rfmt : String) (df : DataFrame)
    (hres : get_dataframe fileName idToHid response rows ufn rfmt "dataframe" =
      some (DatabaseReturn.dataframe df))
    (hndid : (response.cols.map (fun c => c.id)).Nodup)
    (hndnm : (response.cols.map (fun c => c.name)).Nodup)
    (hvs : "Validation Status" ∉ response.cols.map (fun c => c.id))
    (hrid : response.hidPref ++ "-id" ∉ response.cols.map (fun c => c.id))
    (hvr : response.hidPref ++ "-id" ≠ "Validation Status")
    (hnmvs : ∀ c ∈ response.cols, c.name ≠ "Validation Status")
    (hnmrid : ∀ c ∈ response.cols, c.name ≠ response.hidPref ++ "-id")
    (c : ColumnDescriptor) (hc : c ∈ response.cols) (hty : c.type = "select")
    (hcard : c.cardinality = "one") (opts : List String)
    (hopts : c.configSelectOptions = some opts) :
    ∃ col, dictGet df.cols c.name = some col ∧
      col.categorical = some { categories := opts, ordered := false } := by
  obtain ⟨data, fids, rids, cols0, hasm, hpd, htc⟩ :=
    get_dataframe_df_parts fileName idToHid response rows ufn rfmt df hres
  obtain ⟨cols1, cols3, hcat, hatt, hdf⟩ :=
    type_and_cleanup_parts _ response.cols df htc
  have hkeys0 : dictKeys cols0 = dictKeys data := (pdDataFrame_get data cols0 hpd).2
  have hkeysd : dictKeys data = dictKeys (initData response.cols
      (response.hidPref ++ "-id")) := by
    unfold assembleData at hasm
    simpa using assembleRows_keys fileName idToHid ufn rfmt response.cols
      (response.hidPref ++ "-id") rows _ _ hasm
  have hkeyse : dictKeys (initData response.cols (response.hidPref ++ "-id")) =
      "Validation Status" :: (response.hidPref ++ "-id") ::
        response.cols.map (fun c => c.id) :=
    dictKeys_initData_eq response.cols _ hndid hvs hrid hvr
  have hkeys1 : dictKeys cols1 = "Validation Status" ::
      (response.hidPref ++ "-id") :: response.cols.map (fun c => c.id) := by
    rw [applyCategoricals_keys response.cols cols0 cols1 hcat, hkeys0, hkeysd, hkeyse]
  obtain ⟨opts2, col, vs, info, hopts2, hcol, hpcat, hget1⟩ :=
    applyCategoricals_select response.cols cols0 cols1 hcat hndid c hc hty hcard
  have hopts3 : opts2 = opts := Option.some.inj (hopts2 ▸ hopts)
  subst hopts3
  have hinfo : info = { categories := opts2, ordered := false } :=
    pdCategorical_info col.values opts2 vs info hpcat
  have hrename : dictGet (renameCols (columnMapper response.cols) cols1)
      ((dictGet (columnMapper response.cols) c.id).getD c.id) =
      dictGet cols1 c.id := by
    apply dictGet_renameCols
    intro a ha hra
    rw [hkeys1] at ha
    rw [dictGet_columnMapper_mem response.cols hndid c hc] at hra
    rcases List.mem_cons.mp ha with ha | ha
    · subst ha
      rw [dictGet_columnMapper_none response.cols _ hvs] at hra
      exact absurd hra.symm (hnmvs c hc)
    · rcases List.mem_cons.mp ha with ha | ha
      · subst ha
        rw [dictGet_columnMapper_none response.cols _ hrid] at hra
        exact absurd hra.symm (hnmrid c hc)
      · obtain ⟨c2, hc2, hce⟩ := List.mem_map.mp ha
        subst hce
        rw [dictGet_columnMapper_mem response.cols hndid c2 hc2] at hra
        have : c2 = c := List.inj_on_of_nodup_map hndnm hc2 hc (by simpa using hra)
        rw [this]
  have hmapc : (dictGet (columnMapper response.cols) c.id).getD c.id = c.name := by
    rw [dictGet_columnMapper_mem response.cols hndid c hc]
    rfl
  rw [hmapc] at hrename
  have hwipe : dictGet (wipeAttrs (renameCols (columnMapper response.cols) cols1))
      c.name = some { values := vs, categorical := some info, attrs := ColAttrs.empty } := by
    rw [dictGet_wipeAttrs, hrename, hget1]
    rfl
  have hatt2 := attachAttrs_get_proj response.cols _ cols3 hatt c.name
  rw [hwipe] at hatt2
  obtain ⟨col3, hcol3, hproj⟩ := Option.map_eq_some'.mp hatt2
  have hfinal : dictGet df.cols c.name = some col3 := by
    rw [hdf]
    show dictGet (dictUpdateFirst cols3 "Validation Status"
      (fun col => { col with attrs := ColAttrs.validationStatus })) c.name = some col3
    rw [dictGet_dictUpdateFirst_ne _ _ _ _ (hnmvs c hc)]
    exact hcol3
  refine ⟨col3, hfinal, ?_⟩
  have := congrArg Prod.snd hproj
  simp only at this
  rw [this, hinfo]

/-- C6 counterexample: the select column of the example database is
coerced to a categorical with the declared levels but with ordered=false,
because pd.Categorical is called without ordered=True; the claimed
ordered categorical is not produced. -/
theorem select_categorical_counterexample :
    ∃ df, get_dataframe (fun _ => "") (fun _ => "") exDb [exRowOneOption] false
        "human-id" "dataframe" = some (DatabaseReturn.dataframe df) ∧
      ∃ col, dictGet df.cols "Select Col" = some col ∧
        col.categorical = some { categories := ["A", "B"], ordered := false } ∧
        ∀ info, col.categorical = some info → info.ordered ≠ true := by
  refine ⟨_, rfl, _, rfl, rfl, ?_⟩
  intro info hinfo
  rw [← Option.some.inj hinfo]
  decide

/-- C6 witness: the amended theorem applied to the example database. -/
theorem select_categorical_amended_witness :
    ∃ df, get_dataframe (fun _ => "") (fun _ => "") exDb [exRowOneOption] false
        "human-id" "dataframe" = some (DatabaseReturn.dataframe df) ∧
      ∃ col, dictGet df.cols exSelectColumn.name = some col ∧
        col.categorical = some { categories := ["A", "B"], ordered := false } := by
  refine ⟨_, rfl, ?_⟩
  exact select_categorical_amended (fun _ => "") (fun _ => "") exDb [exRowOneOption]
    false "human-id" _ rfl (by decide) (by decide) (by decide) (by decide)
    (by decide) (by decide) (by decide) exSelectColumn (by decide) rfl rfl
    ["A", "B"] rfl

/-! ### The dict return shape of get_dataframe -/

theorem get_dataframe_dict_parts (fileName idToHid : String → String)
    (response : DatabaseResponse) (rows : List RowRecord) (ufn : Bool)
    (rfmt : String) (d : Data)
    (hres : get_dataframe fileName idToHid response rows ufn rfmt "dict" =
      some (DatabaseReturn.dict d)) :
    ∃ data fids rids,
      assembleData fileName idToHid response.cols (response.hidPref ++ "-id") rows
        ufn rfmt = some (data, fids, rids) ∧
      d = renameDict response.cols data := by
  unfold get_dataframe at hres
  by_cases hty : (response.type != "database") = true
  · rw [if_pos hty] at hres
    exact Option.noConfusion hres
  · rw [if_neg hty] at hres
    simp only at hres
    cases hasm : assembleData fileName idToHid response.cols
        (response.hidPref ++ "-id") rows ufn rfmt with
    | none => rw [hasm] at hres; exact Option.noConfusion hres
    | some out =>
      obtain ⟨data, fids, rids⟩ := out
      rw [hasm] at hres
      simp only [if_neg (by decide : ¬(("dict" == "dataframe") = true))] at hres
      have hd := Option.some.inj hres
      exact ⟨data, fids, rids, rfl, (DatabaseReturn.dict.inj hd).symm⟩

/-- The key-renaming loop of the dict branch: under fresh, pairwise
distinct display names disjoint from the column ids, the loop re-keys
each column from its id to its name while reading values from the
original data dictionary, leaving every other key untouched. -/
theorem renameDictLoop_get (mapper : List (String × String)) (data : Data) :
    ∀ (cs : List ColumnDescriptor) (rd : Data),
      (∀ c ∈ cs, dictGet mapper c.id = some c.name) →
      (∀ c ∈ cs, (dictGet data c.id).isSome = true) →
      (∀ c ∈ cs, c.name ∉ dictKeys rd) →
      (cs.map (fun c => c.name)).Nodup →
      (∀ c ∈ cs, ∀ c2 ∈ cs, c.name ≠ c2.id) →
      (∀ c ∈ cs, dictGet (cs.foldl
          (fun rd c => match dictGet mapper c.id, dictGet data c.id with
            | some new_key, some v => dictRemove (dictSet rd new_key v) c.id
            | _, _ => rd) rd) c.name = dictGet data c.id) ∧
      (∀ k, k ∉ cs.map (fun c => c.id) → k ∉ cs.map (fun c => c.name) →
        dictGet (cs.foldl
          (fun rd c => match dictGet mapper c.id, dictGet data c.id with
            | some new_key, some v => dictRemove (dictSet rd new_key v) c.id
            | _, _ => rd) rd) k = dictGet rd k) := by
  intro cs
  induction cs with
  | nil =>
    intro rd _ _ _ _ _
    exact ⟨fun c hc => absurd hc (List.not_mem_nil c), fun k _ _ => rfl⟩
  | cons c0 cs ih =>
    intro rd hmap hdat hfresh hndnm hni
    rw [List.map_cons] at hndnm
    have hm0 := hmap c0 (List.mem_cons_self _ _)
    obtain ⟨v, hv⟩ := Option.isSome_iff_exists.mp (hdat c0 (List.mem_cons_self _ _))
    have hstep : ∀ rd2, (c0 :: cs).foldl
        (fun rd c => match dictGet mapper c.id, dictGet data c.id with
          | some new_key, some v => dictRemove (dictSet rd new_key v) c.id
          | _, _ => rd) rd2 =
        cs.foldl
          (fun rd c => match dictGet mapper c.id, dictGet data c.id with
            | some new_key, some v => dictRemove (dictSet rd new_key v) c.id
            | _, _ => rd) (dictRemove (dictSet rd2 c0.name v) c0.id) := by
      intro rd2
      rw [List.foldl_cons, hm0, hv]
    rw [hstep rd]
    set rd2 := dictRemove (dictSet rd c0.name v) c0.id with hrd2
    have hfresh2 : ∀ c ∈ cs, c.name ∉ dictKeys rd2 := by
      intro c hc hmem
      rcases mem_keys_dictSet_sub rd c0.name c.name v
          (mem_keys_dictRemove_sub _ _ _ hmem) with hm | hm
      · exact hfresh c (List.mem_cons_of_mem _ hc) hm
      · exact (List.nodup_cons.mp hndnm).1 (hm ▸ List.mem_map.mpr ⟨c, hc, rfl⟩)
    have hih := ih rd2 (fun c hc => hmap c (List.mem_cons_of_mem _ hc))
      (fun c hc => hdat c (List.mem_cons_of_mem _ hc)) hfresh2
      (List.nodup_cons.mp hndnm).2
      (fun c hc c2 hc2 => hni c (List.mem_cons_of_mem _ hc) c2
        (List.mem_cons_of_mem _ hc2))
    constructor
    · intro c hc
      rcases List.mem_cons.mp hc with hc | hc
      · subst hc
        rw [hih.2 c.name ?_ ?_]
        · rw [hrd2,
            dictGet_dictRemove_ne _ _ _ (hni c (List.mem_cons_self _ _) c
              (List.mem_cons_self _ _)),
            dictGet_dictSet_self, hv]
        · intro hm
          obtain ⟨c2, hc2, he⟩ := List.mem_map.mp hm
          exact hni c (List.mem_cons_self _ _) c2 (List.mem_cons_of_mem _ hc2) he.symm
        · intro hm
          obtain ⟨c2, hc2, he⟩ := List.mem_map.mp hm
          exact (List.nodup_cons.mp hndnm).1
            (he ▸ List.mem_map.mpr ⟨c2, hc2, rfl⟩)
      · exact hih.1 c hc
    · intro k hkid hknm
      rw [List.map_cons] at hkid hknm
      have hk1 : k ≠ c0.id := fun he => hkid (he ▸ List.mem_cons_self _ _)
      have hk2 : k ≠ c0.name := fun he => hknm (he ▸ List.mem_cons_self _ _)
      rw [hih.2 k (fun hm => hkid (List.mem_cons_of_mem _ hm))
        (fun hm => hknm (List.mem_cons_of_mem _ hm)), hrd2,
        dictGet_dictRemove_ne _ _ _ hk1, dictGet_dictSet_ne _ _ _ _ (Ne.symm hk2)]

theorem renameDict_eq_foldl (columns : List ColumnDescriptor) (data : Data)
    (hndid : (columns.map (fun c => c.id)).Nodup) :
    renameDict columns data = columns.foldl
      (fun rd c => match dictGet (columnMapper columns) c.id, dictGet data c.id with
        | some new_key, some v => dictRemove (dictSet rd new_key v) c.id
        | _, _ => rd) data := by
  unfold renameDict
  rw [dictKeys_columnMapper columns hndid, List.foldl_map]

/-- C8 amended: the dataframe and dict return shapes of get_dataframe
hold the same cell values, provided the column ids and names are pairwise
distinct, ids and names avoid the reserved keys and each other, and every
single-cardinality select cell is null or within its declared options.
Out-of-domain select values break the equality: the Categorical coercion
maps them to null in the dataframe shape only. -/
theorem df_dict_cell_equality (fileName idToHid : String → String)
    (response : DatabaseResponse) (rows : List RowRecord) (ufn : Bool)
    (rfmt : String) (df : DataFrame) (d : Data)
    (data : Data) (fids rids : List String)
    (hasm : assembleData fileName idToHid response.cols
      (response.hidPref ++ "-id") rows ufn rfmt = some (data, fids, rids))
    (hdf : get_dataframe fileName idToHid response rows ufn rfmt "dataframe" =
      some (DatabaseReturn.dataframe df))
    (hdict : get_dataframe fileName idToHid response rows ufn rfmt "dict" =
      some (DatabaseReturn.dict d))
    (hndid : (response.cols.map (fun c => c.id)).Nodup)
    (hndnm : (response.cols.map (fun c => c.name)).Nodup)
    (hvs : "Validation Status" ∉ response.cols.map (fun c => c.id))
    (hrid : response.hidPref ++ "-id" ∉ response.cols.map (fun c => c.id))
    (hvr : response.hidPref ++ "-id" ≠ "Validation Status")
    (hnmvs : ∀ c ∈ response.cols, c.name ≠ "Validation Status")
    (hnmrid : ∀ c ∈ response.cols, c.name ≠ response.hidPref ++ "-id")
    (hni : ∀ c ∈ response.cols, ∀ c2 ∈ response.cols, c.name ≠ c2.id)
    (hdom : ∀ c ∈ response.cols, c.type = "select" → c.cardinality = "one" →
      ∀ opts, c.configSelectOptions = some opts →
      ∀ vs, dictGet data c.id = some vs →
      ∀ v ∈ vs, v = PyVal.vNone ∨ ∃ str, v = PyVal.vStr str ∧ str ∈ opts) :
    (∀ c ∈ response.cols, ∃ vs, dictGet data c.id = some vs ∧
      (dictGet df.cols c.name).map (fun col => col.values) = some vs ∧
      dictGet d c.name = some vs) ∧
    (∃ vs, dictGet data (response.hidPref ++ "-id") = some vs ∧
      (dictGet df.cols (response.hidPref ++ "-id")).map (fun col => col.values) =
        some vs ∧
      dictGet d (response.hidPref ++ "-id") = some vs) ∧
    (∃ vs, dictGet data "Validation Status" = some vs ∧
      (dictGet df.cols "Validation Status").map (fun col => col.values) = some vs ∧
      dictGet d "Validation Status" = some vs) := by
  obtain ⟨data2, fids2, rids2, cols0, hasm2, hpd, htc⟩ :=
    get_dataframe_df_parts fileName idToHid response rows ufn rfmt df hdf
  rw [hasm] at hasm2
  have hdata2 : data = data2 := congrArg (fun x => x.1) (Option.some.inj hasm2)
  subst hdata2
  obtain ⟨cols1, cols3, hcat, hatt, hdfe⟩ :=
    type_and_cleanup_parts _ response.cols df htc
  obtain ⟨dataD, fidsD, ridsD, hasmD, hdD⟩ :=
    get_dataframe_dict_parts fileName idToHid response rows ufn rfmt d hdict
  rw [hasm] at hasmD
  have hdataD : data = dataD := congrArg (fun x => x.1) (Option.some.inj hasmD)
  subst hdataD
  have hkeysd : dictKeys data = "Validation Status" ::
      (response.hidPref ++ "-id") :: response.cols.map (fun c => c.id) := by
    unfold assembleData at hasm
    rw [show dictKeys data = dictKeys (initData response.cols
        (response.hidPref ++ "-id")) from by
      simpa using assembleRows_keys fileName idToHid ufn rfmt response.cols
        (response.hidPref ++ "-id") rows _ _ hasm]
    exact dictKeys_initData_eq response.cols _ hndid hvs hrid hvr
  have hkeys1 : dictKeys cols1 = "Validation Status" ::
      (response.hidPref ++ "-id") :: response.cols.map (fun c => c.id) := by
    rw [applyCategoricals_keys response.cols cols0 cols1 hcat,
      (pdDataFrame_get data cols0 hpd).2, hkeysd]
  have hget0 := (pdDataFrame_get data cols0 hpd).1
  -- the dict-side loop facts
  have hloop := renameDictLoop_get (columnMapper response.cols) data response.cols
    data
    (fun c hc => dictGet_columnMapper_mem response.cols hndid c hc)
    (fun c hc => by
      rw [Option.isSome_iff_exists]
      have : c.id ∈ dictKeys data := by
        rw [hkeysd]
        exact List.mem_cons_of_mem _ (List.mem_cons_of_mem _
          (List.mem_map.mpr ⟨c, hc, rfl⟩))
      obtain ⟨v, hv⟩ := Option.isSome_iff_exists.mp
        (dictGet_isSome_of_mem_keys data c.id this)
      exact ⟨v, hv⟩)
    (fun c hc => by
      rw [hkeysd]
      intro hm
      rcases List.mem_cons.mp hm with hm | hm
      · exact hnmvs c hc hm
      · rcases List.mem_cons.mp hm with hm | hm
        · exact hnmrid c hc hm
        · obtain ⟨c2, hc2, he⟩ := List.mem_map.mp hm
          exact hni c hc c2 hc2 he.symm)
    hndnm hni
  have hdget : ∀ c ∈ response.cols, dictGet d c.name = dictGet data c.id := by
    intro c hc
    rw [hdD, renameDict_eq_foldl response.cols data hndid]
    exact hloop.1 c hc
  have hdget2 : ∀ k, k ∉ response.cols.map (fun c => c.id) →
      k ∉ response.cols.map (fun c => c.name) → dictGet d k = dictGet data k := by
    intro k h1 h2
    rw [hdD, renameDict_eq_foldl response.cols data hndid]
    exact hloop.2 k h1 h2
  -- the dataframe-side lookup for a renamed column
  have hrename : ∀ c ∈ response.cols,
      dictGet (renameCols (columnMapper response.cols) cols1) c.name =
        dictGet cols1 c.id := by
    intro c hc
    have := dictGet_renameCols (columnMapper response.cols) cols1 c.id ?_
    · rw [dictGet_columnMapper_mem response.cols hndid c hc] at this
      exact this
    · intro a ha hra
      rw [hkeys1] at ha
      rw [dictGet_columnMapper_mem response.cols hndid c hc] at hra
      rcases List.mem_cons.mp ha with ha | ha
      · subst ha
        rw [dictGet_columnMapper_none response.cols _ hvs] at hra
        exact absurd hra.symm (hnmvs c hc)
      · rcases List.mem_cons.mp ha with ha | ha
        · subst ha
          rw [dictGet_columnMapper_none response.cols _ hrid] at hra
          exact absurd hra.symm (hnmrid c hc)
        · obtain ⟨c2, hc2, hce⟩ := List.mem_map.mp ha
          subst hce
          rw [dictGet_columnMapper_mem response.cols hndid c2 hc2] at hra
          have he2 : c2 = c := List.inj_on_of_nodup_map hndnm hc2 hc
            (by simpa using hra)
          rw [he2]
  have hrenameFix : ∀ k, k ∉ response.cols.map (fun c => c.id) →
      (∀ c ∈ response.cols, c.name ≠ k) →
      dictGet (renameCols (columnMapper response.cols) cols1) k =
        dictGet cols1 k := by
    intro k hkid hknm
    have := dictGet_renameCols (columnMapper response.cols) cols1 k ?_
    · rw [dictGet_columnMapper_none response.cols _ hkid] at this
      exact this
    · intro a ha hra
      rw [hkeys1] at ha
      rw [dictGet_columnMapper_none response.cols _ hkid] at hra
      rcases List.mem_cons.mp ha with ha | ha
      · subst ha
        rw [dictGet_columnMapper_none response.cols _ hvs] at hra
        exact hra
      · rcases List.mem_cons.mp ha with ha | ha
        · subst ha
          rw [dictGet_columnMapper_none response.cols _ hrid] at hra
          exact hra
        · obtain ⟨c2, hc2, hce⟩ := List.mem_map.mp ha
          subst hce
          rw [dictGet_columnMapper_mem response.cols hndid c2 hc2] at hra
          exact absurd (by simpa using hra) (hknm c2 hc2)
  -- transport a cols1 lookup with known values to the final dataframe
  have htransport : ∀ k, k ≠ "Validation Status" →
      ∀ colA, dictGet (renameCols (columnMapper response.cols) cols1) k = some colA →
      (dictGet df.cols k).map (fun col => col.values) = some colA.values := by
    intro k hkvs colA hcolA
    have hw : dictGet (wipeAttrs (renameCols (columnMapper response.cols) cols1)) k =
        some { colA with attrs := ColAttrs.empty } := by
      rw [dictGet_wipeAttrs, hcolA]
      rfl
    have hatt2 := attachAttrs_get_proj response.cols _ cols3 hatt k
    rw [hw] at hatt2
    obtain ⟨col3, hcol3, hproj⟩ := Option.map_eq_some'.mp hatt2
    have hfinal : dictGet df.cols k = some col3 := by
      rw [hdfe]
      show dictGet (dictUpdateFirst cols3 "Validation Status"
        (fun col => { col with attrs := ColAttrs.validationStatus })) k = some col3
      rw [dictGet_dictUpdateFirst_ne _ _ _ _ hkvs]
      exact hcol3
    rw [hfinal]
    have := congrArg Prod.fst hproj
    simp only at this
    rw [Option.map_some']
    rw [this]
  refine ⟨?_, ?_, ?_⟩
  · intro c hc
    have hmemk : c.id ∈ dictKeys data := by
      rw [hkeysd]
      exact List.mem_cons_of_mem _ (List.mem_cons_of_mem _
        (List.mem_map.mpr ⟨c, hc, rfl⟩))
    obtain ⟨vs, hvdata⟩ := Option.isSome_iff_exists.mp
      (dictGet_isSome_of_mem_keys data c.id hmemk)
    have hcols0 : dictGet cols0 c.id =
        some { values := vs, categorical := none, attrs := ColAttrs.empty } := by
      rw [hget0, hvdata]
      rfl
    have hcols1 : ∃ colA, dictGet cols1 c.id = some colA ∧ colA.values = vs := by
      by_cases hsel : c.type = "select" ∧ c.cardinality = "one"
      · obtain ⟨opts, col, vs2, info, hopts, hcol, hpcat, hget1⟩ :=
          applyCategoricals_select response.cols cols0 cols1 hcat hndid c hc
            hsel.1 hsel.2
        have hcoleq :
            col = { values := vs, categorical := none, attrs := ColAttrs.empty } := by
          rw [hcol] at hcols0
          exact Option.some.inj hcols0
        have hpc2 : pdCategorical vs opts =
            some (vs, { categories := opts, ordered := false }) :=
          pdCategorical_of_in_domain opts vs
            (hdom c hc hsel.1 hsel.2 opts hopts vs hvdata)
        rw [hcoleq] at hpcat
        have hpcat2 : pdCategorical vs opts = some (vs2, info) := hpcat
        rw [hpc2] at hpcat2
        have hv2 : vs = vs2 := congrArg Prod.fst (Option.some.inj hpcat2)
        exact ⟨_, hget1, by rw [← hv2]⟩
      · have huntouched : dictGet cols1 c.id = dictGet cols0 c.id := by
          apply applyCategoricals_untouched response.cols cols0 cols1 hcat c.id
          intro c2 hc2 he
          have : c2 = c := List.inj_on_of_nodup_map hndid hc2 hc (by simpa using he)
          rw [this]
          exact hsel
        exact ⟨_, huntouched.trans hcols0, rfl⟩
    obtain ⟨colA, hgetA, hvalsA⟩ := hcols1
    refine ⟨vs, hvdata, ?_, ?_⟩
    · have := htransport c.name (hnmvs c hc) colA (by rw [hrename c hc]; exact hgetA)
      rw [this, hvalsA]
    · rw [hdget c hc, hvdata]
  · have hmemk : (response.hidPref ++ "-id") ∈ dictKeys data := by
      rw [hkeysd]
      exact List.mem_cons_of_mem _ (List.mem_cons_self _ _)
    obtain ⟨vs, hvdata⟩ := Option.isSome_iff_exists.mp
      (dictGet_isSome_of_mem_keys data _ hmemk)
    have hcols0 : dictGet cols0 (response.hidPref ++ "-id") =
        some { values := vs, categorical := none, attrs := ColAttrs.empty } := by
      rw [hget0, hvdata]
      rfl
    have huntouched : dictGet cols1 (response.hidPref ++ "-id") =
        dictGet cols0 (response.hidPref ++ "-id") := by
      apply applyCategoricals_untouched response.cols cols0 cols1 hcat
      intro c2 hc2 he
      exact absurd (he ▸ List.mem_map.mpr ⟨c2, hc2, rfl⟩) hrid
    refine ⟨vs, hvdata, ?_, ?_⟩
    · have := htransport (response.hidPref ++ "-id") hvr _
        (by rw [hrenameFix _ hrid hnmrid]; exact huntouched.trans hcols0)
      rw [this]
    · rw [hdget2 _ hrid (fun hm => by
        obtain ⟨c2, hc2, he⟩ := List.mem_map.mp hm
        exact hnmrid c2 hc2 he), hvdata]
  · have hmemk : "Validation Status" ∈ dictKeys data := by
      rw [hkeysd]
      exact List.mem_cons_self _ _
    obtain ⟨vs, hvdata⟩ := Option.isSome_iff_exists.mp
      (dictGet_isSome_of_mem_keys data _ hmemk)
    have hcols0 : dictGet cols0 "Validation Status" =
        some { values := vs, categorical := none, attrs := ColAttrs.empty } := by
      rw [hget0, hvdata]
      rfl
    have huntouched : dictGet cols1 "Validation Status" =
        dictGet cols0 "Validation Status" := by
      apply applyCategoricals_untouched response.cols cols0 cols1 hcat
      intro c2 hc2 he
      exact absurd (he ▸ List.mem_map.mpr ⟨c2, hc2, rfl⟩) hvs
    have hrn : dictGet (renameCols (columnMapper response.cols) cols1)
        "Validation Status" =
        some { values := vs, categorical := none, attrs := ColAttrs.empty } := by
      rw [hrenameFix _ hvs hnmvs]
      exact huntouched.trans hcols0
    have hw : dictGet (wipeAttrs (renameCols (columnMapper response.cols) cols1))
        "Validation Status" =
        some { values := vs, categorical := none, attrs := ColAttrs.empty } := by
      rw [dictGet_wipeAttrs, hrn]
      rfl
    have hatt2 := attachAttrs_get_proj response.cols _ cols3 hatt "Validation Status"
    rw [hw] at hatt2
    obtain ⟨col3, hcol3, hproj⟩ := Option.map_eq_some'.mp hatt2
    refine ⟨vs, hvdata, ?_, ?_⟩
    · have hfinal : dictGet df.cols "Validation Status" =
          some { col3 with attrs := ColAttrs.validationStatus } := by
        rw [hdfe]
        show dictGet (dictUpdateFirst cols3 "Validation Status"
          (fun col => { col with attrs := ColAttrs.validationStatus }))
          "Validation Status" =
          some { col3 with attrs := ColAttrs.validationStatus }
        rw [dictGet_dictUpdateFirst_self, hcol3]
        rfl
      rw [hfinal, Option.map_some']
      have := congrArg Prod.fst hproj
      simp only at this
      rw [show ({ col3 with attrs := ColAttrs.validationStatus } : DFColumn).values =
        col3.values from rfl, this]
    · rw [hdget2 _ hvs (fun hm => by
        obtain ⟨c2, hc2, he⟩ := List.mem_map.mp hm
        exact hnmvs c2 hc2 he), hvdata]

/-- Example row whose cardinality-one select cell carries a value outside
the declared select options of the column. -/
def exRowOutOfDomain : RowRecord :=
  { id := "r1", hid := "mydb-1", validationStatus := "valid",
    fields := [{ columnId := "c1", value := PyVal.vSelect ["Z"] }] }

/-- C8 counterexample: with a select value outside the declared options,
the dataframe shape stores null for the cell (pd.Categorical coerces
out-of-category values to NaN) while the dict shape keeps the raw string,
so the two return shapes disagree on the cell value. -/
theorem df_dict_cell_counterexample :
    ∃ df d,
      get_dataframe (fun _ => "") (fun _ => "") exDb [exRowOutOfDomain] false
        "human-id" "dataframe" = some (DatabaseReturn.dataframe df) ∧
      get_dataframe (fun _ => "") (fun _ => "") exDb [exRowOutOfDomain] false
        "human-id" "dict" = some (DatabaseReturn.dict d) ∧
      (dictGet df.cols "Select Col").map (fun col => col.values) =
        some [PyVal.vNone] ∧
      dictGet d "Select Col" = some [PyVal.vStr "Z"] ∧
      (some [PyVal.vNone] : Option (List PyVal)) ≠ some [PyVal.vStr "Z"] := by
  refine ⟨_, _, rfl, rfl, rfl, rfl, by simp⟩

/-- C8 witness: the amended equality applied to the example database with
an in-domain select value; both shapes succeed and agree on every column. -/
theorem df_dict_cell_equality_witness :
    ∃ df d data fids rids,
      assembleData (fun _ => "") (fun _ => "") exDb.cols (exDb.hidPref ++ "-id")
        [exRowOneOption] false "human-id" = some (data, fids, rids) ∧
      get_dataframe (fun _ => "") (fun _ => "") exDb [exRowOneOption] false
        "human-id" "dataframe" = some (DatabaseReturn.dataframe df) ∧
      get_dataframe (fun _ => "") (fun _ => "") exDb [exRowOneOption] false
        "human-id" "dict" = some (DatabaseReturn.dict d) ∧
      ((∀ c ∈ exDb.cols, ∃ vs, dictGet data c.id = some vs ∧
          (dictGet df.cols c.name).map (fun col => col.values) = some vs ∧
          dictGet d c.name = some vs) ∧
        (∃ vs, dictGet data (exDb.hidPref ++ "-id") = some vs ∧
          (dictGet df.cols (exDb.hidPref ++ "-id")).map
            (fun col => col.values) = some vs ∧
          dictGet d (exDb.hidPref ++ "-id") = some vs) ∧
        (∃ vs, dictGet data "Validation Status" = some vs ∧
          (dictGet df.cols "Validation Status").map
            (fun col => col.values) = some vs ∧
          dictGet d "Validation Status" = some vs)) := by
  refine ⟨_, _, _, _, _, rfl, rfl, rfl, ?_⟩
  refine df_dict_cell_equality (fun _ => "") (fun _ => "") exDb [exRowOneOption]
    false "human-id" _ _ _ _ _ rfl rfl rfl (by decide) (by decide) (by decide)
    (by decide) (by decide) (by decide) (by decide) (by decide) ?_
  intro c hc ht hcd opts hopts vs hvs v hv
  have hce : c = exSelectColumn := by simpa [exDb] using hc
  subst hce
  have hvseq : vs = [PyVal.vStr "A"] :=
    (Option.some.inj ((rfl :
      dictGet [("Validation Status", [PyVal.vStr "valid"]),
        ("mydb-id", [PyVal.vStr "mydb-1"]),
        ("c1", [PyVal.vStr "A"])] exSelectColumn.id =
        some [PyVal.vStr "A"]).symm.trans hvs)).symm
  subst hvseq
  have hve : v = PyVal.vStr "A" := by simpa using hv
  have hoe : opts = ["A", "B"] := (Option.some.inj
    ((rfl : exSelectColumn.configSelectOptions = some ["A", "B"]).symm.trans
      hopts)).symm
  subst hoe
  exact Or.inr ⟨"A", hve, by decide⟩

end DeepOrigin
